import Mathlib

/-!
Verification development for the Assignment Reconciliation & Calendar
Projection core of `openschichtplaner5-api` (`src/openschichtplaner5_api/api.py`).

Modelling conventions:
* Python strings are embedded as `List Nat` of character codes
  (`45` = hyphen, `46` = dot, `47` = slash, `58` = colon, `84` = letter T,
  `32` = space); this keeps every definition executable and keeps string
  manipulation purely arithmetic.
* Python `dict` objects are embedded as association lists with CPython's
  semantics: updating an existing key rewrites the value in place, a new
  key is appended at the end, and lookup finds the first (unique) match.
* A value read with `dict.get(k)` that may be missing or `None` is embedded
  as `Option`; both "key absent" and "value is None" map to `Option.none`.
* `datetime.date` / `datetime.datetime` values and the several textual date
  encodings are embedded in `PyVal` below.
-/

namespace SP5

/-- Calendar date `(year, month, day)`, embedding `datetime.date` values.
Validity is tracked by `validDate` rather than by the type. -/
structure Date where
  y : Nat
  m : Nat
  d : Nat
deriving DecidableEq, Repr

/-- Gregorian leap-year rule, as implemented by Python's `calendar`/`datetime`. -/
def isLeap (y : Nat) : Bool :=
  (y % 4 == 0 && y % 100 != 0) || y % 400 == 0

/-- `calendar.monthrange(y, m)[1]`: number of days of month `m` in year `y`. -/
def daysInMonth (y m : Nat) : Nat :=
  if m = 2 then (if isLeap y then 29 else 28)
  else if m = 4 ∨ m = 6 ∨ m = 9 ∨ m = 11 then 30
  else 31

/-- The constructor check of `datetime.date(y, m, d)`. -/
def validDate (y m d : Nat) : Bool :=
  decide (1 ≤ y) && decide (y ≤ 9999) && decide (1 ≤ m) && decide (m ≤ 12) &&
  decide (1 ≤ d) && decide (d ≤ daysInMonth y m)

/-- `datetime.date(y, m, d)`: the date when valid, `none` for `ValueError`. -/
def mkDate (y m d : Nat) : Option Date :=
  if validDate y m d then some ⟨y, m, d⟩ else none

/-- Comparison `a <= b` on `datetime.date`: lexicographic on (year, month, day). -/
def dateLe (a b : Date) : Bool :=
  if a.y ≠ b.y then decide (a.y < b.y)
  else if a.m ≠ b.m then decide (a.m < b.m)
  else decide (a.d ≤ b.d)

/-- `lo <= d <= hi` on dates. -/
def dateInRange (lo hi d : Date) : Bool :=
  dateLe lo d && dateLe d hi

/- ### Character-list utilities (Python `str` operations) -/

/-- One character code is an ASCII digit. -/
def isDigitC (c : Nat) : Bool :=
  decide (48 ≤ c) && decide (c ≤ 57)

/-- `c in s` for a single character. -/
def hasChar (c : Nat) : List Nat → Bool
  | [] => false
  | d :: r => if d = c then true else hasChar c r

/-- `s.replace(a, b)` for single characters. -/
def replaceChar (a b : Nat) : List Nat → List Nat
  | [] => []
  | d :: r => (if d = a then b else d) :: replaceChar a b r

/-- `s.split(c)` for a single-character separator (CPython semantics:
splitting the empty string yields `[""]`). -/
def splitOnChar (c : Nat) : List Nat → List (List Nat)
  | [] => [[]]
  | d :: r =>
    if d = c then [] :: splitOnChar c r
    else
      match splitOnChar c r with
      | [] => [[d]]
      | p :: ps => (d :: p) :: ps

/-- `s.isdigit()` restricted to ASCII (all characters are decimal digits);
on the empty string Python returns `False`, but every use in the source
guards with a length check first. -/
def allDigits (s : List Nat) : Bool :=
  s.all isDigitC

/-- `s.upper()` on ASCII character codes. -/
def upperS (s : List Nat) : List Nat :=
  s.map fun c => if 97 ≤ c ∧ c ≤ 122 then c - 32 else c

/-- Truthiness of an optional string (`None` and `""` are falsy). -/
def truthyO : Option (List Nat) → Bool
  | none => false
  | some s => !s.isEmpty

/- ### strptime models

CPython's `strptime` matches each numeric directive with a regex
alternation `\d{w}|...|\d{1}`; against the formats used here this is
equivalent to consuming greedily at most `w` leading digits (at least one),
then requiring the literal separator.  The whole string must be consumed
("unconverted data remains" otherwise), and `datetime.date` construction
validates the calendar ranges. -/

/-- Consume at most `w` leading digit characters, accumulating their value.
Returns (value, number of digits consumed, rest). -/
def grabDigits : Nat → Nat → Nat → List Nat → Nat × Nat × List Nat
  | 0, acc, cnt, s => (acc, cnt, s)
  | _ + 1, acc, cnt, [] => (acc, cnt, [])
  | w + 1, acc, cnt, c :: r =>
    if isDigitC c then grabDigits w (acc * 10 + (c - 48)) (cnt + 1) r
    else (acc, cnt, c :: r)

/-- Match a numeric directive of maximal width `w` (at least one digit). -/
def matchNum (w : Nat) (s : List Nat) : Option (Nat × List Nat) :=
  match grabDigits w 0 0 s with
  | (v, cnt, r) => if cnt = 0 then none else some (v, r)

/-- Match one literal character. -/
def expectChar (c : Nat) : List Nat → Option (List Nat)
  | [] => none
  | d :: r => if d = c then some r else none

/-- `datetime.strptime(s, '%Y-%m-%d').date()`. -/
def strptimeYmd (s : List Nat) : Option Date :=
  (matchNum 4 s).bind fun ⟨y, r1⟩ =>
  (expectChar 45 r1).bind fun r2 =>
  (matchNum 2 r2).bind fun ⟨m, r3⟩ =>
  (expectChar 45 r3).bind fun r4 =>
  (matchNum 2 r4).bind fun ⟨d, r5⟩ =>
  if r5 = [] then mkDate y m d else none

/-- `datetime.strptime(s, '%m/%d/%Y').date()`. -/
def strptimeMdY (s : List Nat) : Option Date :=
  (matchNum 2 s).bind fun ⟨m, r1⟩ =>
  (expectChar 47 r1).bind fun r2 =>
  (matchNum 2 r2).bind fun ⟨d, r3⟩ =>
  (expectChar 47 r3).bind fun r4 =>
  (matchNum 4 r4).bind fun ⟨y, r5⟩ =>
  if r5 = [] then mkDate y m d else none

/-- CPython's `%y` century rule: 0-68 map into the 2000s, 69-99 into the 1900s. -/
def expandY2 (yy : Nat) : Nat :=
  if yy ≤ 68 then 2000 + yy else 1900 + yy

/-- `datetime.strptime(s, '%d/%m/%y').date()`. -/
def strptimeDmy2 (s : List Nat) : Option Date :=
  (matchNum 2 s).bind fun ⟨d, r1⟩ =>
  (expectChar 47 r1).bind fun r2 =>
  (matchNum 2 r2).bind fun ⟨m, r3⟩ =>
  (expectChar 47 r3).bind fun r4 =>
  (matchNum 2 r4).bind fun ⟨yy, r5⟩ =>
  if r5 = [] then mkDate (expandY2 yy) m d else none

/-- `datetime.strptime(s, '%d.%m.%Y').date()`. -/
def strptimeDmY (s : List Nat) : Option Date :=
  (matchNum 2 s).bind fun ⟨d, r1⟩ =>
  (expectChar 46 r1).bind fun r2 =>
  (matchNum 2 r2).bind fun ⟨m, r3⟩ =>
  (expectChar 46 r3).bind fun r4 =>
  (matchNum 4 r4).bind fun ⟨y, r5⟩ =>
  if r5 = [] then mkDate y m d else none

/-- `datetime.strptime(s, '%Y%m%d').date()`. -/
def strptimeY8 (s : List Nat) : Option Date :=
  (matchNum 4 s).bind fun ⟨y, r1⟩ =>
  (matchNum 2 r1).bind fun ⟨m, r2⟩ =>
  (matchNum 2 r2).bind fun ⟨d, r3⟩ =>
  if r3 = [] then mkDate y m d else none

/-- Time tail accepted by `datetime.fromisoformat` after the date and one
separator character: `HH`, `HH:MM` or `HH:MM:SS` (fractions and offsets,
which the source data never carries, are not modelled). -/
def timeTailOk (t : List Nat) : Bool :=
  match t with
  | [h1, h2] =>
    isDigitC h1 && isDigitC h2 && decide ((h1 - 48) * 10 + (h2 - 48) < 24)
  | [h1, h2, 58, m1, m2] =>
    isDigitC h1 && isDigitC h2 && decide ((h1 - 48) * 10 + (h2 - 48) < 24) &&
    isDigitC m1 && isDigitC m2 && decide ((m1 - 48) * 10 + (m2 - 48) < 60)
  | [h1, h2, 58, m1, m2, 58, s1, s2] =>
    isDigitC h1 && isDigitC h2 && decide ((h1 - 48) * 10 + (h2 - 48) < 24) &&
    isDigitC m1 && isDigitC m2 && decide ((m1 - 48) * 10 + (m2 - 48) < 60) &&
    isDigitC s1 && isDigitC s2 && decide ((s1 - 48) * 10 + (s2 - 48) < 60)
  | _ => false

/-- `datetime.fromisoformat(s).date()`: a strictly zero-padded `YYYY-MM-DD`
prefix, optionally followed by one separator character and a time tail. -/
def fromisoModel (s : List Nat) : Option Date :=
  match s with
  | c1 :: c2 :: c3 :: c4 :: 45 :: c5 :: c6 :: 45 :: c7 :: c8 :: rest =>
    if isDigitC c1 && isDigitC c2 && isDigitC c3 && isDigitC c4 &&
       isDigitC c5 && isDigitC c6 && isDigitC c7 && isDigitC c8 then
      match rest with
      | [] =>
        mkDate (((c1 - 48) * 10 + (c2 - 48)) * 100 + (c3 - 48) * 10 + (c4 - 48))
          ((c5 - 48) * 10 + (c6 - 48)) ((c7 - 48) * 10 + (c8 - 48))
      | _ :: t =>
        if timeTailOk t then
          mkDate (((c1 - 48) * 10 + (c2 - 48)) * 100 + (c3 - 48) * 10 + (c4 - 48))
            ((c5 - 48) * 10 + (c6 - 48)) ((c7 - 48) * 10 + (c8 - 48))
        else none
    else none
  | _ => none

/- ### Loosely-typed date values and Python dicts -/

/-- The possible shapes of a record's `date` field as the handlers see it:
a text string, a `datetime.datetime` (has a `.date()` method), a
`datetime.date` (has a `.year` attribute but no `.date()`), `None` / a
missing key, or a value of some other type. -/
inductive PyVal where
  | str (s : List Nat)
  | dt (d : Date)
  | date (d : Date)
  | none
  | other
deriving DecidableEq, Repr

/-- Python truthiness of a `date` field (`if shift_date:`):
`None` and the empty string are falsy. -/
def truthyVal : PyVal → Bool
  | .str s => !s.isEmpty
  | .none => false
  | _ => true

/-- Association-list lookup: the value stored under key `k` (dict lookup). -/
def alookup {α : Type} [DecidableEq α] {β : Type} (k : α) :
    List (α × β) → Option β
  | [] => Option.none
  | (a, b) :: r => if a = k then some b else alookup k r

/-- Association-list update with CPython dict semantics: rewrite the value
at an existing key in place, otherwise append the new binding at the end. -/
def aupdate {α : Type} [DecidableEq α] {β : Type} (k : α) (v : β) :
    List (α × β) → List (α × β)
  | [] => [(k, v)]
  | (a, b) :: r => if a = k then (a, v) :: r else (a, b) :: aupdate k v r

/- ### Reference data records -/

/-- A `5SHIFT` row as used by the handlers: id, optional name / shortname /
start-time text, and optional color attributes. -/
structure ShiftDef where
  id : Nat
  name : Option (List Nat)
  shortname : Option (List Nat)
  startend0 : Option (List Nat)
  colorbar : Option Nat
  colorbk : Option Nat
  colortext : Option Nat
deriving DecidableEq, Repr

/-- A `5EMPL` row: id, optional name and firstname, and the employment-end
field checked by the `empend is_null` filter. -/
structure Employee where
  id : Nat
  name : Option (List Nat)
  firstname : Option (List Nat)
  empend : Option Date
deriving DecidableEq, Repr

/-- A `5MASHI` / `5SPSHI` row: the fields the handlers read. -/
structure SRec where
  employee_id : Option Nat
  date : PyVal
  shift_id : Option Nat
deriving DecidableEq, Repr

/-- A `5ABSEN` row: the fields the handlers read (the absence-type code is
the raw `type` column with `.get('type', 0)` defaulting). -/
structure ARec where
  employee_id : Option Nat
  date : PyVal
  atype : Option Nat
deriving DecidableEq, Repr

/-- A `5LEAVE` row: the fields the year-view handler reads. -/
structure LRec where
  employee_id : Option Nat
  date : PyVal
  leave_type_id : Option Nat
deriving DecidableEq, Repr

/-- `{s['id']: s for s in ...}`: a dict keyed by id (later rows overwrite). -/
def dictOfDefs (defs : List ShiftDef) : List (Nat × ShiftDef) :=
  defs.foldl (fun m sd => aupdate sd.id sd m) []

/-- `{e['id']: e for e in ...}` over employees. -/
def dictOfEmps (emps : List Employee) : List (Nat × Employee) :=
  emps.foldl (fun m e => aupdate e.id e m) []

/- ### Date normalization of `get_einsatzplan` (api.py lines 479-518)

A parsed string may succeed, raise a caught `(ValueError, TypeError)`
(`err`, counted and skipped), or leave `shift_date` a string — which the
subsequent `start_date <= shift_date` comparison turns into an uncaught
`TypeError` (`crash`), aborting the request with a 500 response.  The
only such shape is a slash-containing string that does not split into
exactly three parts. -/

inductive StrParse where
  | ok (d : Date)
  | err
  | crash
deriving DecidableEq, Repr

/-- The einsatzplan text-date ladder: `'T' in s` → `fromisoformat` on the
`'T'→' '` replacement; `'-' in s and len(s) >= 10` → `%Y-%m-%d` on the
first 10 characters; `'/' in s` → `%m/%d/%Y` when the third slash part has
4 characters, else `%d/%m/%y` (a non-3-part split falls through unparsed
and crashes later); `'.' in s` → `%d.%m.%Y`; an 8-character digit string →
`%Y%m%d`; anything else raises a caught `ValueError`. -/
def einsatzStrParse (s : List Nat) : StrParse :=
  if hasChar 84 s then
    match fromisoModel (replaceChar 84 32 s) with
    | some d => .ok d
    | Option.none => .err
  else if hasChar 45 s && decide (10 ≤ s.length) then
    match strptimeYmd (s.take 10) with
    | some d => .ok d
    | Option.none => .err
  else if hasChar 47 s then
    match splitOnChar 47 s with
    | [_, _, p3] =>
      if p3.length = 4 then
        match strptimeMdY s with
        | some d => .ok d
        | Option.none => .err
      else
        match strptimeDmy2 s with
        | some d => .ok d
        | Option.none => .err
    | _ => .crash
  else if hasChar 46 s then
    match strptimeDmY s with
    | some d => .ok d
    | Option.none => .err
  else if s.length = 8 && allDigits s then
    match strptimeY8 s with
    | some d => .ok d
    | Option.none => .err
  else .err

/-- Per-fact outcome of the einsatzplan date handling followed by the
month-window check (lines 470-520 and the `else` of line 555): `skip` for
a falsy date, `err` for a counted parse failure or unknown type, `outWin`
for a parsed date outside the window (also counted, by the `else` branch),
`inWin` for a processed fact, `crash` for an uncaught `TypeError`. -/
inductive Outcome where
  | skip
  | err
  | outWin
  | inWin (d : Date)
  | crash
deriving DecidableEq, Repr

def einsatzOutcome (lo hi : Date) : PyVal → Outcome
  | .none => .skip
  | .str s =>
    if s.isEmpty then .skip
    else
      match einsatzStrParse s with
      | .ok d => if dateInRange lo hi d then .inWin d else .outWin
      | .err => .err
      | .crash => .crash
  | .dt d => if dateInRange lo hi d then .inWin d else .outWin
  | .date d => if dateInRange lo hi d then .inWin d else .outWin
  | .other => .err

/- ### Date normalization of `get_dienstplan` (api.py lines 366-378)

Strings try `fromisoformat` (when containing `'T'`) or `%Y-%m-%d` on the
first 10 characters; failures `continue` silently (no counter exists in
this handler).  A value that is neither falsy, a string, nor
`.date()`-bearing falls through unchanged: a `datetime.date` compares
fine, any other type crashes the request. -/
def dienstplanStrParse (s : List Nat) : Option Date :=
  if hasChar 84 s then fromisoModel (replaceChar 84 32 s)
  else strptimeYmd (s.take 10)

def dienstplanOutcome (lo hi : Date) : PyVal → Outcome
  | .none => .skip
  | .str s =>
    if s.isEmpty then .skip
    else
      match dienstplanStrParse s with
      | some d => if dateInRange lo hi d then .inWin d else .outWin
      | Option.none => .skip
  | .dt d => if dateInRange lo hi d then .inWin d else .outWin
  | .date d => if dateInRange lo hi d then .inWin d else .outWin
  | .other => .crash

/- ### Date parsing of `get_jahresuebersicht` (api.py lines 898-914)

Only dash-containing strings are tried (`%Y-%m-%d` on the first 10
characters); every other string shape, and every unknown type, is dropped
by `continue` — nothing in this handler counts drops. -/
def yearDateParse : PyVal → Option Date
  | .str s => if hasChar 45 s then strptimeYmd (s.take 10) else Option.none
  | .dt d => some d
  | .date d => some d
  | .none => Option.none
  | .other => Option.none

/- ### String constants of the handlers, as character codes -/

/-- `"Abwesenheit"` as character codes. -/
def abwesenheitStr : List Nat := [65, 98, 119, 101, 115, 101, 110, 104, 101, 105, 116]

/-- `"Unbekannte Schicht"` as character codes. -/
def unbekannteStr : List Nat := [85, 110, 98, 101, 107, 97, 110, 110, 116, 101, 32, 83, 99, 104, 105, 99, 104, 116]

/-- `"Unknown"` as character codes. -/
def unknownStr : List Nat := [85, 110, 107, 110, 111, 119, 110]

/-- `"Tagschicht"` as character codes. -/
def tagschichtStr : List Nat := [84, 97, 103, 115, 99, 104, 105, 99, 104, 116]

/-- `"AB"` as character codes. -/
def abStr : List Nat := [65, 66]

/-- `"UA"` as character codes. -/
def uaStr : List Nat := [85, 65]

/-- `"00:00"` as character codes. -/
def zeroZeroStr : List Nat := [48, 48, 58, 48, 48]

/-- The localized month names of the year view, in calendar order. -/
def germanMonthName : Nat → List Nat
  | 0 => [74, 228, 110, 110, 101, 114]
  | 1 => [70, 101, 98, 114, 117, 97, 114]
  | 2 => [77, 228, 114, 122]
  | 3 => [65, 112, 114, 105, 108]
  | 4 => [77, 97, 105]
  | 5 => [74, 117, 110, 105]
  | 6 => [74, 117, 108, 105]
  | 7 => [65, 117, 103, 117, 115, 116]
  | 8 => [83, 101, 112, 116, 101, 109, 98, 101, 114]
  | 9 => [79, 107, 116, 111, 98, 101, 114]
  | 10 => [78, 111, 118, 101, 109, 98, 101, 114]
  | 11 => [68, 101, 122, 101, 109, 98, 101, 114]
  | _ => []

/- ### Month Grid Projection: `get_dienstplan` (api.py lines 314-408) -/

/-- One populated day cell of the month grid (lines 385-395). -/
structure DCell where
  shift_id : Option Nat
  shift_code : List Nat
  shift_name : List Nat
  date : Date
  colorbar : Nat
  colorbk : Nat
  colortext : Nat
deriving DecidableEq, Repr

/-- Display-code expression of the month grid, line 383:
`shift_def.get('shortname') or shift_def.get('name', 'T')[:1]
 if shift_def.get('name') else 'T'` — by Python precedence the
conditional is outermost, gated on the name's truthiness. -/
def monthCode (osd : Option ShiftDef) : List Nat :=
  let sn := osd.bind ShiftDef.shortname
  let nm := osd.bind ShiftDef.name
  if truthyO nm then (if truthyO sn then sn.getD [] else (nm.getD []).take 1)
  else [84]

/-- The cell written for an in-window fact (lines 382-395). -/
def dienstplanCell (defsD : List (Nat × ShiftDef)) (a : SRec) (d : Date) : DCell :=
  let osd := a.shift_id.bind fun i => alookup i defsD
  { shift_id := a.shift_id
    shift_code := monthCode osd
    shift_name := (osd.bind ShiftDef.name).getD tagschichtStr
    date := d
    colorbar := (osd.bind ShiftDef.colorbar).getD 65535
    colorbk := (osd.bind ShiftDef.colorbk).getD 65535
    colortext := (osd.bind ShiftDef.colortext).getD 0 }

/-- Per-employee schedule entry: the employee record and the day-indexed cells. -/
abbrev DSched := Employee × List (Nat × DCell)

/-- One fact of the combined `5MASHI ++ 5SPSHI` stream (lines 360-396):
the employee-membership check comes first, then date handling; an
in-window fact overwrites the day cell unconditionally.  `Option.none`
models the uncaught `TypeError` a non-date, non-string value causes. -/
def dienstplanStep (lo hi : Date) (defsD : List (Nat × ShiftDef))
    (oacc : Option (List (Nat × DSched))) (a : SRec) : Option (List (Nat × DSched)) :=
  oacc.bind fun acc =>
    match a.employee_id with
    | Option.none => some acc
    | some eid =>
      match alookup eid acc with
      | Option.none => some acc
      | some es =>
        match dienstplanOutcome lo hi a.date with
        | .skip => some acc
        | .outWin => some acc
        | .err => some acc
        | .crash => Option.none
        | .inWin d =>
          some (aupdate eid (es.1, aupdate d.d (dienstplanCell defsD a d) es.2) acc)

/-- Fold the combined fact stream over the pre-initialized schedules. -/
def dienstplanBuild (lo hi : Date) (defsD : List (Nat × ShiftDef))
    (init : List (Nat × DSched)) (facts : List SRec) : Option (List (Nat × DSched)) :=
  facts.foldl (dienstplanStep lo hi defsD) (some init)

/-- `get_dienstplan`: only active employees (`empend is_null`) are loaded,
optionally truncated by `limit`; the fact stream is `5MASHI ++ 5SPSHI`.
The handler issues no query against `5ABSEN`: the parameter `absen`
models that table's contents, which this view never reads. -/
def dienstplanShown (limit : Option Nat) (emps : List Employee) : List Employee :=
  let active := emps.filter fun e => e.empend.isNone
  match limit with
  | some l => if l < active.length then active.take l else active
  | Option.none => active

def dienstplan (year month : Nat) (limit : Option Nat) (emps : List Employee)
    (mashi spshi : List SRec) (absen : List ARec) (defs : List ShiftDef) :
    Option (List (Nat × DSched)) :=
  dienstplanBuild ⟨year, month, 1⟩ ⟨year, month, daysInMonth year month⟩
    (dictOfDefs defs) ((dienstplanShown limit emps).map fun e => (e.id, (e, [])))
    (mashi ++ spshi)

/- ### Shift Matrix Projection: `get_einsatzplan` (api.py lines 410-577) -/

/-- A matrix cell: the employee id plus display fields (lines 550-554). -/
structure Cell where
  id : Option Nat
  cname : List Nat
  firstname : List Nat
deriving DecidableEq, Repr

/-- The `shift_definition` stored in a row: the looked-up `5SHIFT` dict,
the empty dict `{}` when the id was unknown, or the literal absence dict
`{'name': 'Abwesenheit', 'startend0': '00:00', 'duration0': 0}`. -/
inductive RowDef where
  | fromDef (sd : ShiftDef)
  | emptyDef
  | absenceDef
deriving DecidableEq, Repr

/-- One row of the matrix: its stored definition and day → employee list. -/
structure Row where
  rdef : RowDef
  days : List (Nat × List Cell)
deriving DecidableEq, Repr

/-- The matrix keyed by shift display name, in dict insertion order. -/
abbrev Matrix := List (List Nat × Row)

/-- An element of the combined assignment list (lines 443-453): `5MASHI`
and `5SPSHI` rows carry no `type` key; converted absences carry
`type = 'absence'` and the sentinel `shift_id` 99999. -/
structure EAssign where
  employee_id : Option Nat
  date : PyVal
  shift_id : Option Nat
  isAbsence : Bool
deriving DecidableEq, Repr

def srecToEAssign (r : SRec) : EAssign :=
  ⟨r.employee_id, r.date, r.shift_id, false⟩

def absToEAssign (a : ARec) : EAssign :=
  ⟨a.employee_id, a.date, some 99999, true⟩

/-- `mashi + spshi + absence_assignments` in source order. -/
def einsatzFacts (mashi spshi : List SRec) (absen : List ARec) : List EAssign :=
  mashi.map srecToEAssign ++ spshi.map srecToEAssign ++ absen.map absToEAssign

/-- `employees_dict.get(employee_id, {})` with `Unknown` / `''` defaults. -/
def cellOf (empD : List (Nat × Employee)) (eid : Option Nat) : Cell :=
  match eid.bind fun i => alookup i empD with
  | some e => ⟨eid, e.name.getD unknownStr, e.firstname.getD []⟩
  | Option.none => ⟨eid, unknownStr, []⟩

/-- Append one employee cell under a shift name and day (lines 541-554):
a missing row is created with the fact's definition, a present row keeps
its stored definition; the day list is created or extended. -/
def bump (mx : Matrix) (nm : List Nat) (rd : RowDef) (day : Nat) (c : Cell) : Matrix :=
  match alookup nm mx with
  | Option.none => aupdate nm ⟨rd, [(day, [c])]⟩ mx
  | some row =>
    match alookup day row.days with
    | Option.none => aupdate nm ⟨row.rdef, aupdate day [c] row.days⟩ mx
    | some cs => aupdate nm ⟨row.rdef, aupdate day (cs ++ [c]) row.days⟩ mx

/-- One fact of the combined stream (lines 470-556).  The accumulator is
`(matrix, processed_count, date_parse_errors)`; `Option.none` models the
uncaught `TypeError` of a slash string that does not split in three. -/
def einsatzStep (lo hi : Date) (defsD : List (Nat × ShiftDef))
    (empD : List (Nat × Employee)) (oacc : Option (Matrix × Nat × Nat))
    (a : EAssign) : Option (Matrix × Nat × Nat) :=
  oacc.bind fun acc =>
    match einsatzOutcome lo hi a.date with
    | .skip => some acc
    | .err => some (acc.1, acc.2.1, acc.2.2 + 1)
    | .outWin => some (acc.1, acc.2.1, acc.2.2 + 1)
    | .crash => Option.none
    | .inWin d =>
      let nmrd : List Nat × RowDef :=
        if a.isAbsence then (abwesenheitStr, RowDef.absenceDef)
        else
          match a.shift_id.bind fun i => alookup i defsD with
          | some sd => (sd.name.getD unbekannteStr, RowDef.fromDef sd)
          | Option.none => (unbekannteStr, RowDef.emptyDef)
      some (bump acc.1 nmrd.1 nmrd.2 d.d (cellOf empD a.employee_id), acc.2.1 + 1, acc.2.2)

/-- `get_einsatzplan` up to the built matrix and its counters. -/
def einsatzplan (year month : Nat) (mashi spshi : List SRec) (absen : List ARec)
    (defs : List ShiftDef) (emps : List Employee) : Option (Matrix × Nat × Nat) :=
  (einsatzFacts mashi spshi absen).foldl
    (einsatzStep ⟨year, month, 1⟩ ⟨year, month, daysInMonth year month⟩
      (dictOfDefs defs) (dictOfEmps emps))
    (some ([], 0, 0))

/-- Sort key of the response rows (line 566):
`shift_matrix[x]['shift_definition'].get('startend0', '00:00')`. -/
def rowStart : RowDef → List Nat
  | .fromDef sd => sd.startend0.getD zeroZeroStr
  | .emptyDef => zeroZeroStr
  | .absenceDef => zeroZeroStr

/-- Python string `<=` on character codes. -/
def strLe : List Nat → List Nat → Bool
  | [], _ => true
  | _ :: _, [] => false
  | a :: xs, b :: ys => if a < b then true else if b < a then false else strLe xs ys

/-- Stable insertion keeping an element after equal keys. -/
def insertRow (e : List Nat × Row) : Matrix → Matrix
  | [] => [e]
  | f :: r =>
    if strLe (rowStart f.2.rdef) (rowStart e.2.rdef) then f :: insertRow e r
    else e :: f :: r

/-- The response's `sorted_shifts`: rows stably sorted by start time. -/
def einsatzSorted (mx : Matrix) : Matrix :=
  mx.foldl (fun acc e => insertRow e acc) []

/- ### Year Grid Projection: `get_jahresuebersicht` (api.py lines 769-971) -/

/-- The `type` tag of a combined year-view assignment (lines 852-891);
spec names: Primary = `main`, Override = `special`. -/
inductive YKind where
  | main
  | special
  | absence
  | leave
deriving DecidableEq, Repr

/-- The `priority` field, a strict function of the kind. -/
def prio : YKind → Nat
  | .main => 1
  | .special => 2
  | .absence => 3
  | .leave => 4

/-- One element of `all_assignments` (lines 849-891). -/
structure YAssign where
  date : PyVal
  shift_id : Option Nat
  kind : YKind
  extra : Option Nat
deriving DecidableEq, Repr

/-- The four adapter loops (lines 852-891): each stream is filtered by
date truthiness and tagged with its kind; input order is preserved and
the streams are concatenated main, special, absence, leave. -/
def buildYearAssigns (mashi spshi : List SRec) (absen : List ARec)
    (leaves : List LRec) : List YAssign :=
  (mashi.filter fun r => truthyVal r.date).map
      (fun r => ⟨r.date, r.shift_id, .main, Option.none⟩)
  ++ (spshi.filter fun r => truthyVal r.date).map
      (fun r => ⟨r.date, r.shift_id, .special, Option.none⟩)
  ++ (absen.filter fun r => truthyVal r.date).map
      (fun r => ⟨r.date, Option.none, .absence, some (r.atype.getD 0)⟩)
  ++ (leaves.filter fun r => truthyVal r.date).map
      (fun r => ⟨r.date, Option.none, .leave, some (r.leave_type_id.getD 0)⟩)

/-- One reconciliation step (lines 897-922): parse the date, keep only the
requested year, then store the fact when the key is new or its priority is
strictly greater than the stored one.  The dict key `parsed_date.isoformat()`
is in bijection with the parsed date and is modelled by the date itself. -/
def yearStep (year : Nat) (da : List (Date × YAssign)) (a : YAssign) :
    List (Date × YAssign) :=
  if truthyVal a.date then
    match yearDateParse a.date with
    | Option.none => da
    | some d =>
      if dateInRange ⟨year, 1, 1⟩ ⟨year, 12, 31⟩ d then
        match alookup d da with
        | Option.none => aupdate d a da
        | some ex => if prio a.kind > prio ex.kind then aupdate d a da else da
      else da
  else da

/-- `date_assignments` after the single pass over `all_assignments`. -/
def reconcileYear (year : Nat) (assigns : List YAssign) : List (Date × YAssign) :=
  assigns.foldl (yearStep year) []

/-- One month entry of the response (lines 842-846). -/
structure MonthEntry where
  month : Nat
  mname : List Nat
  days : List (Nat × Option (List Nat))
deriving DecidableEq, Repr

/-- Day slots `1..31`, all pre-initialized to `None` (lines 838-840).
Python keys the dict by `str(day)`; decimal strings are in bijection with
the day numbers and are modelled by the numbers. -/
def initDays : List (Nat × Option (List Nat)) :=
  (List.range 31).map fun j => (j + 1, Option.none)

/-- The twelve pre-initialized month entries (lines 832-846). -/
def monthsInit : List MonthEntry :=
  (List.range 12).map fun i => ⟨i + 1, germanMonthName i, initDays⟩

/-- Display-code resolution of the year view (lines 936-941): the explicit
shortname when truthy, else the first two name characters upper-cased when
the name is truthy, else the fallback `'T'`. -/
def yearCode (osd : Option ShiftDef) : List Nat :=
  let c0 := osd.bind ShiftDef.shortname
  let c1 :=
    if !truthyO c0 && truthyO (osd.bind ShiftDef.name)
    then some (upperS (((osd.bind ShiftDef.name).getD []).take 2))
    else c0
  if truthyO c1 then c1.getD [] else [84]

/-- In-place update of the list element at an index (list stays unchanged
when the index is out of range). -/
def listModify {α : Type} (f : α → α) : Nat → List α → List α
  | _, [] => []
  | 0, x :: r => f x :: r
  | n + 1, x :: r => x :: listModify f n r

/-- Write one reconciled winner into the months structure (lines 925-945):
`AB` for an absence, `UA` for leave, the resolved shift code otherwise. -/
def applyWinner (defsD : List (Nat × ShiftDef)) (ms : List MonthEntry)
    (e : Date × YAssign) : List MonthEntry :=
  let code : List Nat :=
    match e.2.kind with
    | .absence => abStr
    | .leave => uaStr
    | .main => yearCode (e.2.shift_id.bind fun i => alookup i defsD)
    | .special => yearCode (e.2.shift_id.bind fun i => alookup i defsD)
  listModify (fun me => ⟨me.month, me.mname, aupdate e.1.d (some code) me.days⟩)
    (e.1.m - 1) ms

/-- `get_jahresuebersicht`: months structure after reconciliation and
rendering (the companion legend and employee header are not modelled). -/
def jahresuebersicht (year : Nat) (mashi spshi : List SRec) (absen : List ARec)
    (leaves : List LRec) (defs : List ShiftDef) : List MonthEntry :=
  (reconcileYear year (buildYearAssigns mashi spshi absen leaves)).foldl
    (applyWinner (dictOfDefs defs)) monthsInit

/- ### Derived definitions used by the verification statements -/

/-- Zero-padded two-digit rendering of `n < 100` (`%02d`). -/
def pad2 (n : Nat) : List Nat := [48 + n / 10, 48 + n % 10]

/-- Zero-padded four-digit rendering of `n < 10000` (`%04d`). -/
def pad4 (n : Nat) : List Nat :=
  [48 + n / 1000, 48 + n / 100 % 10, 48 + n / 10 % 10, 48 + n % 10]

/-- The ISO encoding `YYYY-MM-DD` of a date. -/
def isoRender (y m d : Nat) : List Nat := pad4 y ++ 45 :: (pad2 m ++ 45 :: pad2 d)

/-- The slash encoding `MM/DD/YYYY` of a date. -/
def slashRender (y m d : Nat) : List Nat := pad2 m ++ 47 :: (pad2 d ++ 47 :: pad4 y)

/-- The two-digit-year slash encoding `DD/MM/YY`. -/
def slash2Render (d m yy : Nat) : List Nat := pad2 d ++ 47 :: (pad2 m ++ 47 :: pad2 yy)

/-- The dot encoding `DD.MM.YYYY` of a date. -/
def dotRender (y m d : Nat) : List Nat := pad2 d ++ 46 :: (pad2 m ++ 46 :: pad4 y)

/-- The bare-digit encoding `YYYYMMDD` of a date. -/
def digit8Render (y m d : Nat) : List Nat := pad4 y ++ (pad2 m ++ pad2 d)

/-- The year window test of the reconciler (`start_date <= d <= end_date`). -/
def yearWindow (year : Nat) (d : Date) : Bool :=
  dateInRange ⟨year, 1, 1⟩ ⟨year, 12, 31⟩ d

/-- A year-view assignment updates key `k`: its date is truthy, parses to
`k`, and `k` lies in the requested year. -/
def resolvesTo (year : Nat) (k : Date) (a : YAssign) : Bool :=
  truthyVal a.date && decide (yearDateParse a.date = some k) && yearWindow year k

/-- The stored winner at one key after processing a fact list, starting
from a current stored value — the per-key view of the reconciler loop. -/
def winAfter (year : Nat) (k : Date) (cur : Option YAssign) :
    List YAssign → Option YAssign
  | [] => cur
  | a :: r =>
    winAfter year k
      (if resolvesTo year k a then
        match cur with
        | Option.none => some a
        | some w => if prio a.kind > prio w.kind then some a else cur
      else cur) r

/-- The input facts that compete for key `k`, in input order. -/
def factsFor (year : Nat) (k : Date) (l : List YAssign) : List YAssign :=
  l.filter (resolvesTo year k)

/-- Maximum priority among a fact list (0 when empty). -/
def maxPrioList : List YAssign → Nat
  | [] => 0
  | a :: r => max (prio a.kind) (maxPrioList r)

/-- The month-grid cell stored for employee `eid` at day `day`. -/
def dayCell (out : List (Nat × DSched)) (eid day : Nat) : Option DCell :=
  (alookup eid out).bind fun es => alookup day es.2

/-- Employee `eid` appears in the matrix cell of row `nm` at day `day`. -/
def memCell (mx : Matrix) (nm : List Nat) (day : Nat) (eid : Nat) : Bool :=
  match alookup nm mx with
  | some row =>
    match alookup day row.days with
    | some cs => cs.any fun c => c.id == some eid
    | Option.none => false
  | Option.none => false

/-- Number of employee entries in one row. -/
def rowEntries (r : Row) : Nat := (r.days.map fun p => p.2.length).sum

/-- Total number of employee cell entries across the matrix. -/
def totalEntries (mx : Matrix) : Nat := (mx.map fun p => rowEntries p.2).sum

def isInWin : Outcome → Bool
  | .inWin _ => true
  | _ => false

def isCounted : Outcome → Bool
  | .err => true
  | .outWin => true
  | _ => false

def isCrash : Outcome → Bool
  | .crash => true
  | _ => false

/-- 1 when an outcome is a processed in-window fact. -/
def outcomeIn : Outcome → Nat
  | .inWin _ => 1
  | .skip => 0
  | .err => 0
  | .outWin => 0
  | .crash => 0

/-- 1 when an outcome increments the `date_parse_errors` counter: a failed
normalization or a parsed date outside the month window. -/
def outcomeDrop : Outcome → Nat
  | .err => 1
  | .outWin => 1
  | .skip => 0
  | .inWin _ => 0
  | .crash => 0

/-- Number of facts the matrix build processes into a cell (in-window). -/
def countIn (lo hi : Date) : List EAssign → Nat
  | [] => 0
  | a :: r => outcomeIn (einsatzOutcome lo hi a.date) + countIn lo hi r

/-- Number of facts the `date_parse_errors` counter counts. -/
def countDropped (lo hi : Date) : List EAssign → Nat
  | [] => 0
  | a :: r => outcomeDrop (einsatzOutcome lo hi a.date) + countDropped lo hi r

/-- Employee membership in a cell of a possibly-failed matrix result. -/
def matrixMem (o : Option (Matrix × Nat × Nat)) (nm : List Nat)
    (day eid : Nat) : Bool :=
  match o with
  | some r => memCell r.1 nm day eid
  | Option.none => false

/-- A native date value embedded in a `PyVal` is a valid calendar date —
an invariant Python's `datetime` types enforce by construction. -/
def validVal : PyVal → Bool
  | .dt d => validDate d.y d.m d.d
  | .date d => validDate d.y d.m d.d
  | _ => true

/-- Priority of a possibly-absent stored winner (0 when absent). -/
def prioOpt : Option YAssign → Nat
  | Option.none => 0
  | some a => prio a.kind

/-- Well-shapedness of the year-grid months structure: twelve entries in
calendar order, each with the localized name and day keys 1..31, and every
day beyond the month's real length still at the `None` default. -/
def monthShapeOk (year : Nat) (ms : List MonthEntry) : Prop :=
  ms.length = 12 ∧
  ∀ i e, ms.get? i = some e →
    e.month = i + 1 ∧ e.mname = germanMonthName i ∧
    e.days.map Prod.fst = initDays.map Prod.fst ∧
    (∀ d, daysInMonth year (i + 1) < d → d ≤ 31 →
      alookup d e.days = some Option.none)

/-- The month-grid cell's shift name for one employee and day, read off a
possibly-failed projection result. -/
def cellNameOf (o : Option (List (Nat × DSched))) (eid day : Nat) :
    Option (List Nat) :=
  match o with
  | some out => (dayCell out eid day).map DCell.shift_name
  | Option.none => Option.none

/-- The per-entry invariant of the month-grid schedules: every entry
stores an employee with null `empend`, under the id of an active employee
of the input. -/
def schedQ (emps : List Employee) (acc : List (Nat × DSched)) : Prop :=
  ∀ p ∈ acc, p.2.1.empend = Option.none ∧
    ∃ e ∈ emps, e.empend = Option.none ∧ p.1 = e.id

/-- The Display Code Resolver as the spec words it (§4.7): the explicit
short name if present and non-empty; otherwise the first two characters of
the name, upper-cased; otherwise a single fixed fallback character.  This
second definition follows the spec, not the code, for refinement
comparison against `yearCode` and `monthCode`. -/
def specShortCode (osd : Option ShiftDef) : List Nat :=
  let sn := osd.bind ShiftDef.shortname
  let nm := osd.bind ShiftDef.name
  if truthyO sn then sn.getD []
  else if truthyO nm then upperS ((nm.getD []).take 2)
  else [84]

/- ### Digit and character lemmas -/

theorem grabDigits_step (w acc cnt : Nat) (c : Nat) (r : List Nat)
    (h : isDigitC c = true) :
    grabDigits (w + 1) acc cnt (c :: r) =
      grabDigits w (acc * 10 + (c - 48)) (cnt + 1) r := by
  simp [grabDigits, h]

theorem grab2 (n acc cnt : Nat) (rest : List Nat) (h : n < 100) :
    grabDigits 2 acc cnt (pad2 n ++ rest) = (acc * 100 + n, cnt + 2, rest) := by
  have h1 : isDigitC (48 + n / 10) = true := by simp [isDigitC]; omega
  have h2 : isDigitC (48 + n % 10) = true := by simp [isDigitC]; omega
  show grabDigits 2 acc cnt ((48 + n / 10) :: (48 + n % 10) :: rest) = _
  rw [grabDigits_step _ _ _ _ _ h1, grabDigits_step _ _ _ _ _ h2]
  simp [grabDigits]
  omega

theorem grab4 (n acc cnt : Nat) (rest : List Nat) (h : n < 10000) :
    grabDigits 4 acc cnt (pad4 n ++ rest) = (acc * 10000 + n, cnt + 4, rest) := by
  have h1 : isDigitC (48 + n / 1000) = true := by simp [isDigitC]; omega
  have h2 : isDigitC (48 + n / 100 % 10) = true := by simp [isDigitC]; omega
  have h3 : isDigitC (48 + n / 10 % 10) = true := by simp [isDigitC]; omega
  have h4 : isDigitC (48 + n % 10) = true := by simp [isDigitC]; omega
  show grabDigits 4 acc cnt
    ((48 + n / 1000) :: (48 + n / 100 % 10) :: (48 + n / 10 % 10) :: (48 + n % 10) :: rest) = _
  rw [grabDigits_step _ _ _ _ _ h1, grabDigits_step _ _ _ _ _ h2,
      grabDigits_step _ _ _ _ _ h3, grabDigits_step _ _ _ _ _ h4]
  simp [grabDigits]
  omega

theorem matchNum2_pad (n : Nat) (rest : List Nat) (h : n < 100) :
    matchNum 2 (pad2 n ++ rest) = some (n, rest) := by
  simp [matchNum, grab2 n 0 0 rest h]

theorem matchNum4_pad (n : Nat) (rest : List Nat) (h : n < 10000) :
    matchNum 4 (pad4 n ++ rest) = some (n, rest) := by
  simp [matchNum, grab4 n 0 0 rest h]

theorem hasChar_iff_mem (c : Nat) (l : List Nat) : hasChar c l = true ↔ c ∈ l := by
  induction l with
  | nil => simp [hasChar]
  | cons d r ih =>
    simp only [hasChar]
    by_cases h : d = c
    · simp [h]
    · simp [h, ih]
      exact fun hc => absurd hc.symm h

theorem hasChar_eq_false (c : Nat) (l : List Nat) : hasChar c l = false ↔ c ∉ l := by
  rw [← hasChar_iff_mem]
  cases hasChar c l <;> simp

theorem splitOnChar_no_sep (c : Nat) (l : List Nat) (h : c ∉ l) :
    splitOnChar c l = [l] := by
  induction l with
  | nil => rfl
  | cons d r ih =>
    simp only [List.mem_cons] at h
    push_neg at h
    simp only [splitOnChar]
    rw [if_neg (fun hd => h.1 hd.symm)]
    rw [ih h.2]

theorem splitOnChar_sep (c : Nat) (l r : List Nat) (h : c ∉ l) :
    splitOnChar c (l ++ c :: r) = l :: splitOnChar c r := by
  induction l with
  | nil => simp [splitOnChar]
  | cons d t ih =>
    simp only [List.mem_cons] at h
    push_neg at h
    simp only [List.cons_append, splitOnChar]
    rw [if_neg (fun hd => h.1 hd.symm)]
    simp only [List.append_eq]
    rw [ih h.2]

theorem not_mem_pad2 (c n : Nat) (hn : n < 100) (hc : c < 48 ∨ 57 < c) :
    c ∉ pad2 n := by
  simp [pad2]
  omega

theorem not_mem_pad4 (c n : Nat) (hn : n < 10000) (hc : c < 48 ∨ 57 < c) :
    c ∉ pad4 n := by
  simp [pad4]
  omega

/- ### strptime round-trips on the rendered encodings -/

theorem strptimeYmd_render (y m d : Nat) (hy : y < 10000) (hm : m < 100) (hd : d < 100) :
    strptimeYmd (isoRender y m d) = mkDate y m d := by
  have e4 := matchNum4_pad y (45 :: (pad2 m ++ 45 :: pad2 d)) hy
  have e2a := matchNum2_pad m (45 :: pad2 d) hm
  have e2b := matchNum2_pad d [] hd
  simp only [List.append_nil] at e2b
  simp [strptimeYmd, isoRender, e4, e2a, e2b, expectChar]

theorem strptimeMdY_render (y m d : Nat) (hy : y < 10000) (hm : m < 100) (hd : d < 100) :
    strptimeMdY (slashRender y m d) = mkDate y m d := by
  have e2a := matchNum2_pad m (47 :: (pad2 d ++ 47 :: pad4 y)) hm
  have e2b := matchNum2_pad d (47 :: pad4 y) hd
  have e4 := matchNum4_pad y [] hy
  simp only [List.append_nil] at e4
  simp [strptimeMdY, slashRender, e2a, e2b, e4, expectChar]

theorem strptimeDmY_render (y m d : Nat) (hy : y < 10000) (hm : m < 100) (hd : d < 100) :
    strptimeDmY (dotRender y m d) = mkDate y m d := by
  have e2a := matchNum2_pad d (46 :: (pad2 m ++ 46 :: pad4 y)) hd
  have e2b := matchNum2_pad m (46 :: pad4 y) hm
  have e4 := matchNum4_pad y [] hy
  simp only [List.append_nil] at e4
  simp [strptimeDmY, dotRender, e2a, e2b, e4, expectChar]

theorem strptimeY8_render (y m d : Nat) (hy : y < 10000) (hm : m < 100) (hd : d < 100) :
    strptimeY8 (digit8Render y m d) = mkDate y m d := by
  have e4 := matchNum4_pad y (pad2 m ++ pad2 d) hy
  have e2a := matchNum2_pad m (pad2 d) hm
  have e2b := matchNum2_pad d [] hd
  simp only [List.append_nil] at e2b
  simp [strptimeY8, digit8Render, e4, e2a, e2b]

theorem strptimeDmy2_render (d m yy : Nat) (hd : d < 100) (hm : m < 100) (hyy : yy < 100) :
    strptimeDmy2 (slash2Render d m yy) = mkDate (expandY2 yy) m d := by
  have e2a := matchNum2_pad d (47 :: (pad2 m ++ 47 :: pad2 yy)) hd
  have e2b := matchNum2_pad m (47 :: pad2 yy) hm
  have e2c := matchNum2_pad yy [] hyy
  simp only [List.append_nil] at e2c
  simp [strptimeDmy2, slash2Render, e2a, e2b, e2c, expectChar]

/- ### Calendar bounds -/

theorem daysInMonth_le (y m : Nat) : daysInMonth y m ≤ 31 := by
  rw [daysInMonth]
  split
  · split <;> omega
  · split <;> omega

theorem validDate_bounds (y m d : Nat) (h : validDate y m d = true) :
    1 ≤ y ∧ y ≤ 9999 ∧ 1 ≤ m ∧ m ≤ 12 ∧ 1 ≤ d ∧ d ≤ 31 := by
  simp [validDate] at h
  have h31 := daysInMonth_le y m
  omega

/- ### The einsatzplan normalizer on each rendered encoding -/

theorem iso_no84 (y m d : Nat) (hy : y < 10000) (hm : m < 100) (hd : d < 100) :
    hasChar 84 (isoRender y m d) = false := by
  rw [hasChar_eq_false]
  simp [isoRender, pad4, pad2]
  omega

theorem iso_has45 (y m d : Nat) : hasChar 45 (isoRender y m d) = true := by
  rw [hasChar_iff_mem]
  simp [isoRender]

theorem iso_len (y m d : Nat) : (isoRender y m d).length = 10 := by
  simp [isoRender, pad4, pad2]

theorem einsatz_iso (y m d : Nat) (hy : y < 10000) (hm : m < 100) (hd : d < 100)
    (hv : validDate y m d = true) :
    einsatzStrParse (isoRender y m d) = .ok ⟨y, m, d⟩ := by
  have htake : (isoRender y m d).take 10 = isoRender y m d :=
    List.take_of_length_le (by rw [iso_len])
  rw [einsatzStrParse]
  simp only [iso_no84 y m d hy hm hd, iso_has45, iso_len, htake]
  simp [strptimeYmd_render y m d hy hm hd, mkDate, hv]

theorem einsatz_slash (y m d : Nat) (hv : validDate y m d = true) :
    einsatzStrParse (slashRender y m d) = .ok ⟨y, m, d⟩ := by
  obtain ⟨b1, b2, b3, b4, b5, b6⟩ := validDate_bounds y m d hv
  have hy : y < 10000 := by omega
  have hm : m < 100 := by omega
  have hd : d < 100 := by omega
  have h84 : hasChar 84 (slashRender y m d) = false := by
    rw [hasChar_eq_false]; simp [slashRender, pad4, pad2]; omega
  have h45 : hasChar 45 (slashRender y m d) = false := by
    rw [hasChar_eq_false]; simp [slashRender, pad4, pad2]; omega
  have h47 : hasChar 47 (slashRender y m d) = true := by
    rw [hasChar_iff_mem]; simp [slashRender]
  have hsplit : splitOnChar 47 (slashRender y m d) = [pad2 m, pad2 d, pad4 y] := by
    rw [slashRender, splitOnChar_sep _ _ _ (not_mem_pad2 47 m hm (by omega))]
    rw [splitOnChar_sep _ _ _ (not_mem_pad2 47 d hd (by omega))]
    rw [splitOnChar_no_sep _ _ (not_mem_pad4 47 y hy (by omega))]
  rw [einsatzStrParse]
  simp only [h84, h45, h47, hsplit]
  simp [strptimeMdY_render y m d hy hm hd, mkDate, hv, pad4]

theorem einsatz_dot (y m d : Nat) (hv : validDate y m d = true) :
    einsatzStrParse (dotRender y m d) = .ok ⟨y, m, d⟩ := by
  obtain ⟨b1, b2, b3, b4, b5, b6⟩ := validDate_bounds y m d hv
  have hy : y < 10000 := by omega
  have hm : m < 100 := by omega
  have hd : d < 100 := by omega
  have h84 : hasChar 84 (dotRender y m d) = false := by
    rw [hasChar_eq_false]; simp [dotRender, pad4, pad2]; omega
  have h45 : hasChar 45 (dotRender y m d) = false := by
    rw [hasChar_eq_false]; simp [dotRender, pad4, pad2]; omega
  have h47 : hasChar 47 (dotRender y m d) = false := by
    rw [hasChar_eq_false]; simp [dotRender, pad4, pad2]; omega
  have h46 : hasChar 46 (dotRender y m d) = true := by
    rw [hasChar_iff_mem]; simp [dotRender]
  rw [einsatzStrParse]
  simp only [h84, h45, h47, h46]
  simp [strptimeDmY_render y m d hy hm hd, mkDate, hv]

theorem einsatz_digit8 (y m d : Nat) (hv : validDate y m d = true) :
    einsatzStrParse (digit8Render y m d) = .ok ⟨y, m, d⟩ := by
  obtain ⟨b1, b2, b3, b4, b5, b6⟩ := validDate_bounds y m d hv
  have hy : y < 10000 := by omega
  have hm : m < 100 := by omega
  have hd : d < 100 := by omega
  have h84 : hasChar 84 (digit8Render y m d) = false := by
    rw [hasChar_eq_false]; simp [digit8Render, pad4, pad2]; omega
  have h45 : hasChar 45 (digit8Render y m d) = false := by
    rw [hasChar_eq_false]; simp [digit8Render, pad4, pad2]; omega
  have h47 : hasChar 47 (digit8Render y m d) = false := by
    rw [hasChar_eq_false]; simp [digit8Render, pad4, pad2]; omega
  have h46 : hasChar 46 (digit8Render y m d) = false := by
    rw [hasChar_eq_false]; simp [digit8Render, pad4, pad2]; omega
  have hlen : (digit8Render y m d).length = 8 := by simp [digit8Render, pad4, pad2]
  have hdig : allDigits (digit8Render y m d) = true := by
    simp [digit8Render, pad4, pad2, allDigits, isDigitC]
    omega
  rw [einsatzStrParse]
  simp only [h84, h45, h47, h46, hlen, hdig]
  simp [strptimeY8_render y m d hy hm hd, mkDate, hv]

theorem einsatz_slash2 (d m yy : Nat) (hyy : yy < 100)
    (hv : validDate (expandY2 yy) m d = true) :
    einsatzStrParse (slash2Render d m yy) = .ok ⟨expandY2 yy, m, d⟩ := by
  obtain ⟨b1, b2, b3, b4, b5, b6⟩ := validDate_bounds _ m d hv
  have hm : m < 100 := by omega
  have hd : d < 100 := by omega
  have h84 : hasChar 84 (slash2Render d m yy) = false := by
    rw [hasChar_eq_false]; simp [slash2Render, pad2]; omega
  have h45 : hasChar 45 (slash2Render d m yy) = false := by
    rw [hasChar_eq_false]; simp [slash2Render, pad2]; omega
  have h47 : hasChar 47 (slash2Render d m yy) = true := by
    rw [hasChar_iff_mem]; simp [slash2Render]
  have hsplit : splitOnChar 47 (slash2Render d m yy) = [pad2 d, pad2 m, pad2 yy] := by
    rw [slash2Render, splitOnChar_sep _ _ _ (not_mem_pad2 47 d hd (by omega))]
    rw [splitOnChar_sep _ _ _ (not_mem_pad2 47 m hm (by omega))]
    rw [splitOnChar_no_sep _ _ (not_mem_pad2 47 yy hyy (by omega))]
  rw [einsatzStrParse]
  simp only [h84, h45, h47, hsplit]
  simp [strptimeDmy2_render d m yy hd hm hyy, mkDate, hv, pad2]

/-- C8: for every valid calendar date, the Shift Matrix Projection's date
normalization maps its four text encodings — ISO `YYYY-MM-DD`, slash
`MM/DD/YYYY` (read month/day/year because the final part has 4 digits,
while a 2-digit final part is read day/month/2-digit-year), dot
`DD.MM.YYYY`, and bare 8-digit `YYYYMMDD` — to the identical
(year, month, day) value. -/
theorem claim_C8_date_encodings (y m d : Nat) (hv : validDate y m d = true) :
    einsatzStrParse (isoRender y m d) = .ok ⟨y, m, d⟩ ∧
    einsatzStrParse (slashRender y m d) = .ok ⟨y, m, d⟩ ∧
    einsatzStrParse (dotRender y m d) = .ok ⟨y, m, d⟩ ∧
    einsatzStrParse (digit8Render y m d) = .ok ⟨y, m, d⟩ ∧
    (∀ yy, yy < 100 → validDate (expandY2 yy) m d = true →
      einsatzStrParse (slash2Render d m yy) = .ok ⟨expandY2 yy, m, d⟩) := by
  obtain ⟨b1, b2, b3, b4, b5, b6⟩ := validDate_bounds y m d hv
  exact ⟨einsatz_iso y m d (by omega) (by omega) (by omega) hv,
    einsatz_slash y m d hv, einsatz_dot y m d hv, einsatz_digit8 y m d hv,
    fun yy hyy hv2 => einsatz_slash2 d m yy hyy hv2⟩

/-- Witness for C8 at the spec's example date 2025-06-03. -/
theorem claim_C8_date_encodings_witness :
    validDate 2025 6 3 = true ∧
    (einsatzStrParse (isoRender 2025 6 3) = .ok ⟨2025, 6, 3⟩ ∧
     einsatzStrParse (slashRender 2025 6 3) = .ok ⟨2025, 6, 3⟩ ∧
     einsatzStrParse (dotRender 2025 6 3) = .ok ⟨2025, 6, 3⟩ ∧
     einsatzStrParse (digit8Render 2025 6 3) = .ok ⟨2025, 6, 3⟩) := by
  have h := claim_C8_date_encodings 2025 6 3 (by decide)
  exact ⟨by decide, h.1, h.2.1, h.2.2.1, h.2.2.2.1⟩




theorem alookup_aupdate_self {α : Type} [DecidableEq α] {β : Type}
    (k : α) (v : β) (l : List (α × β)) :
    alookup k (aupdate k v l) = some v := by
  induction l with
  | nil => simp [aupdate, alookup]
  | cons p r ih =>
    by_cases h : p.1 = k
    · simp [aupdate, alookup, h]
    · simp [aupdate, alookup, h, ih]

theorem alookup_aupdate_other {α : Type} [DecidableEq α] {β : Type}
    (k k2 : α) (v : β) (l : List (α × β)) (h : k2 ≠ k) :
    alookup k (aupdate k2 v l) = alookup k l := by
  induction l with
  | nil => simp [aupdate, alookup, h]
  | cons p r ih =>
    by_cases hp : p.1 = k2
    · simp [aupdate, alookup, hp, h]
    · simp only [aupdate, if_neg hp, alookup]
      by_cases hk : p.1 = k
      · simp [hk]
      · simp [hk, ih]

theorem yearStep_lookup_skip (year : Nat) (k : Date) (da : List (Date × YAssign))
    (a : YAssign) (h : resolvesTo year k a = false) :
    alookup k (yearStep year da a) = alookup k da := by
  by_cases ht : truthyVal a.date
  case neg => simp [yearStep, ht]
  cases hp : yearDateParse a.date with
  | none => simp [yearStep, ht, hp]
  | some dd =>
    by_cases hw : dateInRange ⟨year, 1, 1⟩ ⟨year, 12, 31⟩ dd = true
    case neg => simp [yearStep, ht, hp, hw]
    have hk : dd ≠ k := by
      intro he
      subst he
      rw [resolvesTo, hp] at h
      simp [ht, yearWindow, hw] at h
    cases hl : alookup dd da with
    | none =>
      simp only [yearStep, ht, if_true, hp, hw, hl]
      exact alookup_aupdate_other _ _ _ _ hk
    | some w =>
      by_cases hgt : prio a.kind > prio w.kind
      · simp only [yearStep, ht, if_true, hp, hw, hl, hgt]
        exact alookup_aupdate_other _ _ _ _ hk
      · simp [yearStep, ht, hp, hw, hl, hgt]

theorem yearStep_lookup_new (year : Nat) (k : Date) (da : List (Date × YAssign))
    (a : YAssign) (h : resolvesTo year k a = true) (hl : alookup k da = Option.none) :
    alookup k (yearStep year da a) = some a := by
  rw [resolvesTo] at h
  simp only [Bool.and_eq_true, decide_eq_true_eq] at h
  obtain ⟨⟨ht, hp⟩, hw⟩ := h
  rw [yearWindow] at hw
  simp only [yearStep, ht, if_true, hp, hw, hl]
  exact alookup_aupdate_self k a da

theorem yearStep_lookup_upd (year : Nat) (k : Date) (da : List (Date × YAssign))
    (a w : YAssign) (h : resolvesTo year k a = true) (hl : alookup k da = some w) :
    alookup k (yearStep year da a) =
      (if prio a.kind > prio w.kind then some a else some w) := by
  rw [resolvesTo] at h
  simp only [Bool.and_eq_true, decide_eq_true_eq] at h
  obtain ⟨⟨ht, hp⟩, hw⟩ := h
  rw [yearWindow] at hw
  simp only [yearStep, ht, if_true, hp, hw, hl]
  by_cases hgt : prio a.kind > prio w.kind
  · simp only [hgt, if_true]
    exact alookup_aupdate_self k a da
  · simp only [hgt, if_false]
    exact hl

/-- Combined per-key view of one reconciliation step, shaped like the
`winAfter` update. -/
theorem yearStep_lookupC (year : Nat) (k : Date) (da : List (Date × YAssign))
    (a : YAssign) :
    alookup k (yearStep year da a) =
      (if resolvesTo year k a then
        match alookup k da with
        | Option.none => some a
        | some w => if prio a.kind > prio w.kind then some a else alookup k da
      else alookup k da) := by
  by_cases hres : resolvesTo year k a = true
  · simp only [hres, if_true]
    cases hl : alookup k da with
    | none => rw [yearStep_lookup_new year k da a hres hl]
    | some w => rw [yearStep_lookup_upd year k da a w hres hl]
  · have hres2 : resolvesTo year k a = false := by simpa using hres
    simp only [hres2, Bool.false_eq_true, if_false]
    exact yearStep_lookup_skip year k da a hres2


/-- The reconciler's stored value at one key is the per-key fold
`winAfter` over the fact list. -/
theorem reconcile_winAfter (year : Nat) (k : Date) (l : List YAssign)
    (da : List (Date × YAssign)) :
    alookup k (List.foldl (yearStep year) da l) =
      winAfter year k (alookup k da) l := by
  induction l generalizing da with
  | nil => rfl
  | cons a r ih =>
    rw [List.foldl_cons, ih, yearStep_lookupC]
    rfl



theorem winAfter_cons (year : Nat) (k : Date) (cur : Option YAssign)
    (a : YAssign) (r : List YAssign) :
    winAfter year k cur (a :: r) =
      winAfter year k
        (if resolvesTo year k a then
          match cur with
          | Option.none => some a
          | some w => if prio a.kind > prio w.kind then some a else cur
        else cur) r := rfl

theorem factsFor_cons (year : Nat) (k : Date) (a : YAssign) (r : List YAssign) :
    factsFor year k (a :: r) =
      (if resolvesTo year k a then a :: factsFor year k r else factsFor year k r) := by
  simp only [factsFor, List.filter_cons]

theorem winAfter_prio (year : Nat) (k : Date) (l : List YAssign) :
    ∀ cur, prioOpt (winAfter year k cur l) =
      max (prioOpt cur) (maxPrioList (factsFor year k l)) := by
  induction l with
  | nil =>
    intro cur
    simp [winAfter, factsFor, maxPrioList]
  | cons a r ih =>
    intro cur
    rw [winAfter_cons, factsFor_cons]
    by_cases hres : resolvesTo year k a = true
    · simp only [hres, if_true]
      rw [ih]
      cases cur with
      | none => simp [prioOpt, maxPrioList]
      | some w =>
        by_cases hgt : prio a.kind > prio w.kind
        · simp only [hgt, if_true, prioOpt, maxPrioList]
          omega
        · simp only [hgt, if_false, prioOpt, maxPrioList]
          omega
    · simp only [hres, Bool.false_eq_true, if_false]
      exact ih cur

theorem winAfter_none_iff (year : Nat) (k : Date) (l : List YAssign) :
    ∀ cur, winAfter year k cur l = Option.none ↔
      (cur = Option.none ∧ factsFor year k l = []) := by
  induction l with
  | nil =>
    intro cur
    simp [winAfter, factsFor]
  | cons a r ih =>
    intro cur
    rw [winAfter_cons, factsFor_cons]
    by_cases hres : resolvesTo year k a = true
    · simp only [hres, if_true]
      rw [ih]
      cases cur with
      | none => simp
      | some w =>
        by_cases hgt : prio a.kind > prio w.kind
        · simp [hgt]
        · simp [hgt]
    · simp only [hres, Bool.false_eq_true, if_false]
      exact ih cur

theorem maxPrioList_le_four (l : List YAssign) : maxPrioList l ≤ 4 := by
  induction l with
  | nil => simp [maxPrioList]
  | cons a r ih =>
    rw [maxPrioList]
    have : prio a.kind ≤ 4 := by cases a.kind <;> simp [prio]
    omega

theorem maxPrioList_ge_mem (l : List YAssign) (a : YAssign) (h : a ∈ l) :
    prio a.kind ≤ maxPrioList l := by
  induction l with
  | nil => cases h
  | cons b r ih =>
    rw [maxPrioList]
    rcases List.mem_cons.mp h with hb | hr
    · subst hb; omega
    · have := ih hr; omega

theorem prio_four_leave (w : YAssign) (h : prio w.kind = 4) : w.kind = .leave := by
  cases hk : w.kind <;> rw [hk] at h <;> simp [prio] at h ⊢



theorem alookup_none_iff {α : Type} [DecidableEq α] {β : Type}
    (k : α) (l : List (α × β)) :
    alookup k l = Option.none ↔ k ∉ l.map Prod.fst := by
  induction l with
  | nil => simp [alookup]
  | cons p r ih =>
    by_cases h : p.1 = k
    · simp [alookup, h]
    · simp only [alookup, if_neg h, List.map_cons, List.mem_cons, ih]
      constructor
      · intro hn hc
        rcases hc with hc | hc
        · exact h hc.symm
        · exact hn hc
      · intro hn
        exact fun hc => hn (Or.inr hc)

theorem aupdate_keys_present {α : Type} [DecidableEq α] {β : Type}
    (k : α) (v : β) (l : List (α × β)) (h : k ∈ l.map Prod.fst) :
    (aupdate k v l).map Prod.fst = l.map Prod.fst := by
  induction l with
  | nil => simp at h
  | cons p r ih =>
    by_cases hp : p.1 = k
    · simp [aupdate, hp]
    · simp only [List.map_cons, List.mem_cons] at h
      rcases h with h | h
      · exact absurd h.symm hp
      · simp [aupdate, hp, ih h]

theorem aupdate_keys_absent {α : Type} [DecidableEq α] {β : Type}
    (k : α) (v : β) (l : List (α × β)) (h : k ∉ l.map Prod.fst) :
    (aupdate k v l).map Prod.fst = l.map Prod.fst ++ [k] := by
  induction l with
  | nil => simp [aupdate]
  | cons p r ih =>
    simp only [List.map_cons, List.mem_cons] at h
    push_neg at h
    have hp : p.1 ≠ k := fun hc => h.1 hc.symm
    simp [aupdate, hp, ih h.2]

theorem aupdate_nodup_keys {α : Type} [DecidableEq α] {β : Type}
    (k : α) (v : β) (l : List (α × β)) (h : (l.map Prod.fst).Nodup) :
    ((aupdate k v l).map Prod.fst).Nodup := by
  by_cases hm : k ∈ l.map Prod.fst
  · rw [aupdate_keys_present k v l hm]
    exact h
  · rw [aupdate_keys_absent k v l hm]
    simp [List.nodup_append, h, hm]

theorem yearStep_nodup_keys (year : Nat) (da : List (Date × YAssign))
    (a : YAssign) (h : (da.map Prod.fst).Nodup) :
    ((yearStep year da a).map Prod.fst).Nodup := by
  rw [yearStep]
  split
  · split
    · exact h
    · split
      · split
        · exact aupdate_nodup_keys _ _ _ h
        · split
          · exact aupdate_nodup_keys _ _ _ h
          · exact h
      · exact h
  · exact h

theorem reconcile_nodup_keys (year : Nat) (l : List YAssign) :
    ((reconcileYear year l).map Prod.fst).Nodup := by
  rw [reconcileYear]
  have : ∀ da : List (Date × YAssign), (da.map Prod.fst).Nodup →
      ((List.foldl (yearStep year) da l).map Prod.fst).Nodup := by
    induction l with
    | nil => exact fun da h => h
    | cons a r ih =>
      intro da h
      rw [List.foldl_cons]
      exact ih _ (yearStep_nodup_keys year da a h)
  exact this [] (by simp)



theorem winAfter_stick (year : Nat) (k : Date) (w : YAssign) :
    ∀ l, (∀ a ∈ l, resolvesTo year k a = true → prio a.kind ≤ prio w.kind) →
      winAfter year k (some w) l = some w := by
  intro l
  induction l with
  | nil => intro _; rfl
  | cons a r ih =>
    intro hall
    rw [winAfter_cons]
    by_cases hres : resolvesTo year k a = true
    · have hle := hall a (by simp) hres
      have hgt : ¬ prio a.kind > prio w.kind := by omega
      simp only [hres, if_true, hgt, if_false]
      exact ih fun b hb => hall b (List.mem_cons_of_mem a hb)
    · simp only [hres, Bool.false_eq_true, if_false]
      exact ih fun b hb => hall b (List.mem_cons_of_mem a hb)

theorem winAfter_same_prio (year : Nat) (k : Date) (p : Nat) :
    ∀ l, (∀ a ∈ l, resolvesTo year k a = true → prio a.kind = p) →
      winAfter year k Option.none l = List.find? (resolvesTo year k) l := by
  intro l
  induction l with
  | nil => intro _; rfl
  | cons a r ih =>
    intro hall
    rw [winAfter_cons]
    by_cases hres : resolvesTo year k a = true
    · rw [List.find?_cons_of_pos _ hres]
      simp only [hres, if_true]
      have ha := hall a (by simp) hres
      refine winAfter_stick year k a r fun b hb hbres => ?_
      rw [hall b (List.mem_cons_of_mem a hb) hbres, ha]
    · have hres2 : resolvesTo year k a = false := by simpa using hres
      rw [List.find?_cons_of_neg _ (by simp [hres2])]
      simp only [hres2, Bool.false_eq_true, if_false]
      exact ih fun b hb => hall b (List.mem_cons_of_mem a hb)

/-- C1 (amended): when all competing facts for an employee-day key have
the same kind (equal priority), the reconciler of the year view keeps the
FIRST such fact in input order — replacement happens only on strictly
greater priority, so same-kind duplicates resolve first-seen-wins, not
last-seen-wins. -/
theorem claim_C1_first_seen_wins (year : Nat) (assigns : List YAssign)
    (k : Date) (p : Nat)
    (hall : ∀ a ∈ assigns, resolvesTo year k a = true → prio a.kind = p) :
    alookup k (reconcileYear year assigns) =
      List.find? (resolvesTo year k) assigns := by
  rw [reconcileYear, reconcile_winAfter]
  exact winAfter_same_prio year k p assigns hall

/-- C1 counterexample: two Primary (`main`) facts for the same day in input
order [shift 101, shift 102]; the reconciler's winner carries shift 101 —
the first — while the claim requires the last (shift 102). -/
theorem claim_C1_counterexample :
    (alookup (⟨2025, 6, 5⟩ : Date) (reconcileYear 2025
      [⟨.str (isoRender 2025 6 5), some 101, .main, Option.none⟩,
       ⟨.str (isoRender 2025 6 5), some 102, .main, Option.none⟩])).map
        YAssign.shift_id = some (some 101) ∧
    ¬ (alookup (⟨2025, 6, 5⟩ : Date) (reconcileYear 2025
      [⟨.str (isoRender 2025 6 5), some 101, .main, Option.none⟩,
       ⟨.str (isoRender 2025 6 5), some 102, .main, Option.none⟩])).map
        YAssign.shift_id = some (some 102) := by
  constructor
  · decide
  · decide

/-- Witness for the amended C1 at the two-duplicate scenario: the
hypothesis (all facts for the key are Primary) holds and the winner is
the first fact. -/
theorem claim_C1_first_seen_wins_witness :
    (∀ a ∈ ([⟨.str (isoRender 2025 6 5), some 101, .main, Option.none⟩,
             ⟨.str (isoRender 2025 6 5), some 102, .main, Option.none⟩] :
               List YAssign),
      resolvesTo 2025 ⟨2025, 6, 5⟩ a = true → prio a.kind = 1) ∧
    alookup (⟨2025, 6, 5⟩ : Date) (reconcileYear 2025
      [⟨.str (isoRender 2025 6 5), some 101, .main, Option.none⟩,
       ⟨.str (isoRender 2025 6 5), some 102, .main, Option.none⟩]) =
      List.find? (resolvesTo 2025 ⟨2025, 6, 5⟩)
        [⟨.str (isoRender 2025 6 5), some 101, .main, Option.none⟩,
         ⟨.str (isoRender 2025 6 5), some 102, .main, Option.none⟩] :=
  ⟨by decide, claim_C1_first_seen_wins 2025 _ ⟨2025, 6, 5⟩ 1 (by decide)⟩

/-- C2: the year-view reconciler keeps at most one winner per key (its key
list is duplicate-free), a key is present exactly when some input fact
resolves to it, and the winner's priority is the maximum priority among
the facts competing for the key; in particular a Leave fact for the key
forces the winner's kind to Leave, in any input order. -/
theorem claim_C2_max_priority_wins (year : Nat) (assigns : List YAssign)
    (k : Date) :
    ((reconcileYear year assigns).map Prod.fst).Nodup ∧
    (alookup k (reconcileYear year assigns) = Option.none ↔
      factsFor year k assigns = []) ∧
    (∀ w, alookup k (reconcileYear year assigns) = some w →
      prio w.kind = maxPrioList (factsFor year k assigns) ∧
      ((∃ a ∈ factsFor year k assigns, a.kind = .leave) → w.kind = .leave)) := by
  refine ⟨reconcile_nodup_keys year assigns, ?_, ?_⟩
  · rw [reconcileYear, reconcile_winAfter]
    rw [winAfter_none_iff]
    simp [alookup]
  · intro w hw
    have hr : alookup k (reconcileYear year assigns) =
        winAfter year k Option.none assigns := by
      rw [reconcileYear]
      simpa [alookup] using reconcile_winAfter year k assigns []
    rw [hr] at hw
    have hp := winAfter_prio year k assigns Option.none
    rw [hw] at hp
    simp only [prioOpt, Nat.zero_max] at hp
    refine ⟨hp, fun hex => ?_⟩
    obtain ⟨a, ha, hak⟩ := hex
    have h4 : prio a.kind = 4 := by rw [hak]; rfl
    have hle := maxPrioList_ge_mem _ a ha
    have hge := maxPrioList_le_four (factsFor year k assigns)
    have : prio w.kind = 4 := by omega
    exact prio_four_leave w this

/-- Witness for C2: a Primary fact followed by a Leave fact on one day;
the key is present, the winner has the maximal priority 4 and kind Leave. -/
theorem claim_C2_max_priority_wins_witness :
    ∃ w, alookup (⟨2025, 6, 3⟩ : Date) (reconcileYear 2025
        [⟨.str (isoRender 2025 6 3), some 101, .main, Option.none⟩,
         ⟨.str (isoRender 2025 6 3), Option.none, .leave, some 1⟩]) = some w ∧
      prio w.kind = maxPrioList (factsFor 2025 ⟨2025, 6, 3⟩
        [⟨.str (isoRender 2025 6 3), some 101, .main, Option.none⟩,
         ⟨.str (isoRender 2025 6 3), Option.none, .leave, some 1⟩]) ∧
      w.kind = .leave := by
  have h := claim_C2_max_priority_wins 2025
    [⟨.str (isoRender 2025 6 3), some 101, .main, Option.none⟩,
     ⟨.str (isoRender 2025 6 3), Option.none, .leave, some 1⟩] ⟨2025, 6, 3⟩
  have hl : alookup (⟨2025, 6, 3⟩ : Date) (reconcileYear 2025
      [⟨.str (isoRender 2025 6 3), some 101, .main, Option.none⟩,
       ⟨.str (isoRender 2025 6 3), Option.none, .leave, some 1⟩]) =
      some ⟨.str (isoRender 2025 6 3), Option.none, .leave, some 1⟩ := by decide
  obtain ⟨hcon⟩ := h.2.2 _ hl
  exact ⟨_, hl, hcon, (h.2.2 _ hl).2 (by decide)⟩



theorem yearStep_drop (year : Nat) (a : YAssign)
    (h : yearDateParse a.date = Option.none) :
    ∀ da, yearStep year da a = da := by
  intro da
  by_cases ht : truthyVal a.date
  · simp [yearStep, ht, h]
  · simp [yearStep, ht]

theorem foldl_yearStep_drop (year : Nat) (a : YAssign)
    (h : yearDateParse a.date = Option.none)
    (init : List (Date × YAssign)) (l1 l2 : List YAssign) :
    List.foldl (yearStep year) init (l1 ++ a :: l2) =
      List.foldl (yearStep year) init (l1 ++ l2) := by
  rw [List.foldl_append, List.foldl_append, List.foldl_cons, yearStep_drop year a h]

/-- C10: the Year Grid uses a string date only when it contains a dash and
its first 10 characters parse as `YYYY-MM-DD`; slash, dot and 8-digit
encodings are silently dropped there — the fact leaves no trace in the
output and nothing counts the drop. -/
theorem claim_C10_year_string_dates :
    (∀ s : List Nat, hasChar 45 s = false →
      yearDateParse (.str s) = Option.none) ∧
    (∀ y m d : Nat, validDate y m d = true →
      yearDateParse (.str (isoRender y m d)) = some ⟨y, m, d⟩ ∧
      yearDateParse (.str (slashRender y m d)) = Option.none ∧
      yearDateParse (.str (dotRender y m d)) = Option.none ∧
      yearDateParse (.str (digit8Render y m d)) = Option.none) ∧
    (∀ year (a : YAssign) (pre post : List YAssign),
      yearDateParse a.date = Option.none →
      reconcileYear year (pre ++ a :: post) = reconcileYear year (pre ++ post)) ∧
    (∀ year (r : SRec) (pre post spshi : List SRec) (absen : List ARec)
        (leaves : List LRec) (defs : List ShiftDef) (s : List Nat),
      r.date = .str s → hasChar 45 s = false →
      jahresuebersicht year (pre ++ r :: post) spshi absen leaves defs =
        jahresuebersicht year (pre ++ post) spshi absen leaves defs) := by
  have hA : ∀ s : List Nat, hasChar 45 s = false →
      yearDateParse (.str s) = Option.none := by
    intro s h
    simp [yearDateParse, h]
  have hC : ∀ year (a : YAssign) (pre post : List YAssign),
      yearDateParse a.date = Option.none →
      reconcileYear year (pre ++ a :: post) = reconcileYear year (pre ++ post) := by
    intro year a pre post h
    rw [reconcileYear, reconcileYear, foldl_yearStep_drop year a h]
  refine ⟨hA, ?_, hC, ?_⟩
  · intro y m d hv
    obtain ⟨b1, b2, b3, b4, b5, b6⟩ := validDate_bounds y m d hv
    have hy : y < 10000 := by omega
    have hm : m < 100 := by omega
    have hd : d < 100 := by omega
    refine ⟨?_, ?_, ?_, ?_⟩
    · have htake : (isoRender y m d).take 10 = isoRender y m d :=
        List.take_of_length_le (by rw [iso_len])
      simp only [yearDateParse, iso_has45, if_true, htake]
      rw [strptimeYmd_render y m d hy hm hd, mkDate, if_pos hv]
    · exact hA _ (by rw [hasChar_eq_false]; simp [slashRender, pad4, pad2]; omega)
    · exact hA _ (by rw [hasChar_eq_false]; simp [dotRender, pad4, pad2]; omega)
    · exact hA _ (by rw [hasChar_eq_false]; simp [digit8Render, pad4, pad2]; omega)
  · intro year r pre post spshi absen leaves defs s hr h45
    have heq : reconcileYear year (buildYearAssigns (pre ++ r :: post) spshi absen leaves) =
        reconcileYear year (buildYearAssigns (pre ++ post) spshi absen leaves) := by
      rw [buildYearAssigns, buildYearAssigns]
      rw [List.filter_append, List.filter_append, List.filter_cons]
      by_cases ht : truthyVal r.date
      · simp only [ht, if_true, List.map_append, List.map_cons]
        simp only [List.append_assoc, List.cons_append]
        rw [reconcileYear, reconcileYear]
        exact foldl_yearStep_drop year _ (by simp [hr, hA s h45]) _ _ _
      · simp [ht]
    rw [jahresuebersicht, jahresuebersicht, heq]

/-- Witness for C10 on concrete encodings of 2025-06-03 and a dropped
slash-dated fact. -/
theorem claim_C10_year_string_dates_witness :
    yearDateParse (.str (isoRender 2025 6 3)) = some ⟨2025, 6, 3⟩ ∧
    yearDateParse (.str (slashRender 2025 6 3)) = Option.none ∧
    jahresuebersicht 2025 [⟨some 7, .str (slashRender 2025 6 3), some 5⟩] [] [] [] [] =
      jahresuebersicht 2025 [] [] [] [] [] := by
  have h := claim_C10_year_string_dates
  have h2 := h.2.1 2025 6 3 (by decide)
  refine ⟨h2.1, h2.2.1, ?_⟩
  have := h.2.2.2 2025 ⟨some 7, .str (slashRender 2025 6 3), some 5⟩ [] [] [] [] [] []
    (slashRender 2025 6 3) rfl (by decide)
  simpa using this



theorem daysInMonth_ge (y m : Nat) : 28 ≤ daysInMonth y m := by
  rw [daysInMonth]
  split
  · split <;> omega
  · split <;> omega

theorem mkDate_valid (y m d : Nat) (dd : Date) (h : mkDate y m d = some dd) :
    validDate dd.y dd.m dd.d = true := by
  rw [mkDate] at h
  by_cases hv : validDate y m d = true
  · rw [if_pos hv] at h
    cases h
    exact hv
  · rw [if_neg hv] at h
    cases h

theorem strptimeYmd_valid (s : List Nat) (d : Date) (h : strptimeYmd s = some d) :
    validDate d.y d.m d.d = true := by
  rw [strptimeYmd] at h
  simp only [Option.bind_eq_some] at h
  obtain ⟨⟨y1, r1⟩, _, h⟩ := h
  obtain ⟨r2, _, h⟩ := h
  obtain ⟨⟨m1, r3⟩, _, h⟩ := h
  obtain ⟨r4, _, h⟩ := h
  obtain ⟨⟨d1, r5⟩, _, h⟩ := h
  by_cases hr : r5 = []
  · rw [if_pos hr] at h
    exact mkDate_valid _ _ _ _ h
  · rw [if_neg hr] at h
    cases h

theorem yearDateParse_valid (v : PyVal) (d : Date) (hp : yearDateParse v = some d)
    (hv : validVal v = true) : validDate d.y d.m d.d = true := by
  cases v with
  | str s =>
    rw [yearDateParse] at hp
    by_cases h45 : hasChar 45 s = true
    · rw [if_pos h45] at hp
      exact strptimeYmd_valid _ _ hp
    · rw [if_neg h45] at hp
      cases hp
  | dt d2 =>
    cases hp
    exact hv
  | date d2 =>
    cases hp
    exact hv
  | none => cases hp
  | other => cases hp

theorem window_year_eq (year : Nat) (k : Date) (hw : yearWindow year k = true) :
    k.y = year := by
  rw [yearWindow, dateInRange] at hw
  simp only [Bool.and_eq_true] at hw
  obtain ⟨h1, h2⟩ := hw
  rw [dateLe] at h1 h2
  by_cases hy : year = k.y
  · exact hy.symm
  · rw [if_pos (by simpa using hy)] at h1
    rw [if_pos (fun hc => hy hc.symm)] at h2
    simp only [decide_eq_true_eq] at h1 h2
    omega

theorem aupdate_mem {α : Type} [DecidableEq α] {β : Type}
    (k : α) (v : β) (l : List (α × β)) (p : α × β) (h : p ∈ aupdate k v l) :
    p ∈ l ∨ p = (k, v) := by
  induction l with
  | nil =>
    simp [aupdate] at h
    exact Or.inr h
  | cons q r ih =>
    by_cases hq : q.1 = k
    · rw [aupdate, if_pos hq] at h
      rcases List.mem_cons.mp h with h | h
      · exact Or.inr (by rw [h, hq])
      · exact Or.inl (List.mem_cons_of_mem q h)
    · rw [aupdate, if_neg hq] at h
      rcases List.mem_cons.mp h with h | h
      · exact Or.inl (by simp [h])
      · rcases ih h with h | h
        · exact Or.inl (List.mem_cons_of_mem q h)
        · exact Or.inr h

/-- Every key stored by the year reconciler is a valid calendar date whose
year is the requested one (given native dates carry valid dates). -/
theorem reconcile_keys_valid (year : Nat) (assigns : List YAssign)
    (hv : ∀ a ∈ assigns, validVal a.date = true) :
    ∀ p ∈ reconcileYear year assigns,
      validDate p.1.y p.1.m p.1.d = true ∧ p.1.y = year := by
  rw [reconcileYear]
  have main : ∀ (l : List YAssign) (da : List (Date × YAssign)),
      (∀ a ∈ l, validVal a.date = true) →
      (∀ p ∈ da, validDate p.1.y p.1.m p.1.d = true ∧ p.1.y = year) →
      ∀ p ∈ List.foldl (yearStep year) da l,
        validDate p.1.y p.1.m p.1.d = true ∧ p.1.y = year := by
    intro l
    induction l with
    | nil => exact fun da _ hda => hda
    | cons a r ih =>
      intro da hl hda
      rw [List.foldl_cons]
      refine ih _ (fun b hb => hl b (List.mem_cons_of_mem a hb)) ?_
      intro p hp
      have hstep : yearStep year da a = da ∨
          ∃ dd, yearDateParse a.date = some dd ∧ yearWindow year dd = true ∧
            yearStep year da a = aupdate dd a da := by
        by_cases ht : truthyVal a.date
        case neg => exact Or.inl (by simp [yearStep, ht])
        cases hpp : yearDateParse a.date with
        | none => exact Or.inl (by simp [yearStep, ht, hpp])
        | some dd =>
          by_cases hw : dateInRange ⟨year, 1, 1⟩ ⟨year, 12, 31⟩ dd = true
          case neg => exact Or.inl (by simp [yearStep, ht, hpp, hw])
          cases hll : alookup dd da with
          | none =>
            refine Or.inr ⟨dd, rfl, by rw [yearWindow]; exact hw, ?_⟩
            simp [yearStep, ht, hpp, hw, hll]
          | some w =>
            by_cases hgt : prio a.kind > prio w.kind
            · refine Or.inr ⟨dd, rfl, by rw [yearWindow]; exact hw, ?_⟩
              simp [yearStep, ht, hpp, hw, hll, hgt]
            · exact Or.inl (by simp [yearStep, ht, hpp, hw, hll, hgt])
      rcases hstep with hstep | ⟨dd, hpp, hw, hstep⟩
      · rw [hstep] at hp
        exact hda p hp
      · rw [hstep] at hp
        rcases aupdate_mem _ _ _ _ hp with hp | hp
        · exact hda p hp
        · subst hp
          have hva := hl a (by simp)
          exact ⟨yearDateParse_valid _ _ hpp hva, window_year_eq year dd hw⟩
  exact main assigns [] hv (by simp)




theorem listModify_length {α : Type} (f : α → α) (n : Nat) (l : List α) :
    (listModify f n l).length = l.length := by
  induction l generalizing n with
  | nil => cases n <;> rfl
  | cons x r ih =>
    cases n with
    | zero => simp [listModify]
    | succ n2 => simp [listModify, ih]

theorem listModify_getQ {α : Type} (f : α → α) (n : Nat) (l : List α) (i : Nat) :
    (listModify f n l).get? i =
      (if i = n then (l.get? i).map f else l.get? i) := by
  induction l generalizing n i with
  | nil => simp [listModify]
  | cons x r ih =>
    cases n with
    | zero =>
      cases i with
      | zero => simp [listModify]
      | succ j => simp [listModify]
    | succ n2 =>
      cases i with
      | zero => simp [listModify]
      | succ j => simpa [listModify] using ih n2 j

theorem alookup_initDays :
    ∀ d, d < 32 → 1 ≤ d → alookup d initDays = some Option.none := by decide

theorem mem_initDays_keys (d : Nat) (h1 : 1 ≤ d) (h2 : d ≤ 31) :
    d ∈ initDays.map Prod.fst := by
  simp only [initDays, List.map_map, List.mem_map, List.mem_range]
  exact ⟨d - 1, by omega, by simp; omega⟩

theorem monthsInit_shape (year : Nat) : monthShapeOk year monthsInit := by
  constructor
  · simp [monthsInit]
  · intro i e he
    rw [monthsInit, List.get?_map] at he
    by_cases hi : i < 12
    · rw [List.get?_range hi] at he
      simp only [Option.map] at he
      cases he
      refine ⟨rfl, rfl, rfl, ?_⟩
      intro d hd1 hd2
      have h28 := daysInMonth_ge year (i + 1)
      exact alookup_initDays d (by omega) (by omega)
    · rw [List.get?_eq_none.mpr (by simp; omega)] at he
      cases he

theorem applyWinner_shape (year : Nat) (defsD : List (Nat × ShiftDef))
    (ms : List MonthEntry) (k : Date) (a : YAssign)
    (hk : validDate k.y k.m k.d = true) (hky : k.y = year)
    (h : monthShapeOk year ms) :
    monthShapeOk year (applyWinner defsD ms (k, a)) := by
  obtain ⟨hlen, hent⟩ := h
  have hb := hk
  simp only [validDate, Bool.and_eq_true, decide_eq_true_eq] at hb
  obtain ⟨⟨⟨⟨⟨hb1, hb2⟩, hb3⟩, hb4⟩, hb5⟩, hb6⟩ := hb
  have hdim31 := daysInMonth_le k.y k.m
  constructor
  · simp only [applyWinner]
    rw [listModify_length]
    exact hlen
  · intro i e he
    simp only [applyWinner] at he
    rw [listModify_getQ] at he
    by_cases hi : i = k.m - 1
    · rw [if_pos hi] at he
      rcases hmap : ms.get? i with _ | e0
      · rw [hmap] at he
        cases he
      · rw [hmap] at he
        simp only [Option.map] at he
        obtain ⟨h1, h2, h3, h4⟩ := hent i e0 hmap
        cases he
        refine ⟨h1, h2, ?_, ?_⟩
        · rw [aupdate_keys_present _ _ _
            (by rw [h3]; exact mem_initDays_keys k.d hb5 (by omega))]
          exact h3
        · intro d hd1 hd2
          have hne : k.d ≠ d := by
            have hieq : i + 1 = k.m := by omega
            rw [hieq] at hd1
            rw [hky] at hb6
            omega
          rw [alookup_aupdate_other _ _ _ _ hne]
          exact h4 d hd1 hd2
    · rw [if_neg hi] at he
      exact hent i e he



theorem foldl_applyWinner_shape (year : Nat) (defsD : List (Nat × ShiftDef)) :
    ∀ (wl : List (Date × YAssign)) (ms : List MonthEntry),
      (∀ p ∈ wl, validDate p.1.y p.1.m p.1.d = true ∧ p.1.y = year) →
      monthShapeOk year ms →
      monthShapeOk year (List.foldl (applyWinner defsD) ms wl) := by
  intro wl
  induction wl with
  | nil => exact fun ms _ h => h
  | cons p r ih =>
    intro ms hv h
    rw [List.foldl_cons]
    have hp := hv p (by simp)
    exact ih _ (fun q hq => hv q (List.mem_cons_of_mem p hq))
      (applyWinner_shape year defsD ms p.1 p.2 hp.1 hp.2 h)

/-- C6: for every year and input streams whose native date values are
valid, the Year Grid emits exactly 12 month entries in calendar order;
each entry carries day keys 1..31 (modelling Python's `"1"`..`"31"`)
pre-initialized to the no-assignment default, and every day key beyond the
month's real length still holds that default (`None`) in the output. -/
theorem claim_C6_year_grid_shape (year : Nat) (mashi spshi : List SRec)
    (absen : List ARec) (leaves : List LRec) (defs : List ShiftDef)
    (hv : ∀ a ∈ buildYearAssigns mashi spshi absen leaves, validVal a.date = true) :
    (jahresuebersicht year mashi spshi absen leaves defs).length = 12 ∧
    ∀ i e, (jahresuebersicht year mashi spshi absen leaves defs).get? i = some e →
      e.month = i + 1 ∧ e.mname = germanMonthName i ∧
      e.days.map Prod.fst = initDays.map Prod.fst ∧
      (∀ d, daysInMonth year (i + 1) < d → d ≤ 31 →
        alookup d e.days = some Option.none) := by
  have hkeys := reconcile_keys_valid year (buildYearAssigns mashi spshi absen leaves) hv
  exact foldl_applyWinner_shape year (dictOfDefs defs)
    (reconcileYear year (buildYearAssigns mashi spshi absen leaves))
    monthsInit hkeys (monthsInit_shape year)

/-- Witness for C6: one ISO-dated primary fact; February (a 28-day month
in 2025) keeps day 30 at the default. -/
theorem claim_C6_year_grid_shape_witness :
    ((jahresuebersicht 2025 [⟨some 7, .str (isoRender 2025 6 10), some 5⟩]
        [] [] [] []).length = 12) ∧
    (∀ e, (jahresuebersicht 2025 [⟨some 7, .str (isoRender 2025 6 10), some 5⟩]
        [] [] [] []).get? 1 = some e →
      alookup 30 e.days = some Option.none) := by
  have h := claim_C6_year_grid_shape 2025
    [⟨some 7, .str (isoRender 2025 6 10), some 5⟩] [] [] [] [] (by decide)
  refine ⟨h.1, fun e he => ?_⟩
  exact (h.2 1 e he).2.2.2 30 (by decide) (by decide)



theorem truthyO_getD_ne (o : Option (List Nat)) (h : truthyO o = true) :
    o.getD [] ≠ [] := by
  cases o with
  | none => simp [truthyO] at h
  | some s =>
    simp only [Option.getD]
    intro hc
    subst hc
    simp [truthyO] at h



theorem take_ne_nil (s : List Nat) (n : Nat) (h : s ≠ []) (hn : 1 ≤ n) :
    s.take n ≠ [] := by
  cases s with
  | nil => exact absurd rfl h
  | cons a r =>
    cases n with
    | zero => omega
    | succ n2 => simp [List.take]

theorem upperS_ne_nil (s : List Nat) (h : s ≠ []) : upperS s ≠ [] := by
  cases s with
  | nil => exact absurd rfl h
  | cons a r => simp [upperS]

/-- C7 (amended): the Year Grid resolver follows the spec rule exactly —
shortname when present and non-empty, else the first two name characters
upper-cased, else the fallback `'T'` — and always returns a non-empty
string; the Month Grid resolver also always returns a non-empty string,
but when the name is truthy it falls back to the first ONE character of
the name without upper-casing, and when the name is missing or empty it
returns `'T'` even when a non-empty shortname exists. -/
theorem claim_C7_display_codes (osd : Option ShiftDef) :
    yearCode osd = specShortCode osd ∧
    yearCode osd ≠ [] ∧ monthCode osd ≠ [] ∧
    (truthyO (osd.bind ShiftDef.name) = true →
      monthCode osd =
        (if truthyO (osd.bind ShiftDef.shortname) = true
         then (osd.bind ShiftDef.shortname).getD []
         else ((osd.bind ShiftDef.name).getD []).take 1)) ∧
    (truthyO (osd.bind ShiftDef.name) = false → monthCode osd = [84]) := by
  by_cases hsn : truthyO (osd.bind ShiftDef.shortname) = true
  · by_cases hnm : truthyO (osd.bind ShiftDef.name) = true
    · refine ⟨?_, ?_, ?_, ?_, ?_⟩
      · simp [yearCode, specShortCode, hsn]
      · simp only [yearCode, hsn, Bool.not_true, Bool.false_and,
          Bool.false_eq_true, if_false, if_true]
        exact truthyO_getD_ne _ hsn
      · simp only [monthCode, if_pos hnm, if_pos hsn]
        exact truthyO_getD_ne _ hsn
      · intro _
        simp [monthCode, hnm, hsn]
      · intro hc
        rw [hnm] at hc
        cases hc
    · have hnm2 : truthyO (osd.bind ShiftDef.name) = false := by simpa using hnm
      refine ⟨?_, ?_, ?_, ?_, ?_⟩
      · simp [yearCode, specShortCode, hsn]
      · simp only [yearCode, hsn, Bool.not_true, Bool.false_and,
          Bool.false_eq_true, if_false, if_true]
        exact truthyO_getD_ne _ hsn
      · simp only [monthCode, hnm2, Bool.false_eq_true, if_false]
        simp
      · intro hc
        rw [hnm2] at hc
        cases hc
      · intro _
        simp [monthCode, hnm2]
  · have hsn2 : truthyO (osd.bind ShiftDef.shortname) = false := by simpa using hsn
    by_cases hnm : truthyO (osd.bind ShiftDef.name) = true
    · have hne : ((osd.bind ShiftDef.name).getD []).take 2 ≠ [] :=
        take_ne_nil _ 2 (truthyO_getD_ne _ hnm) (by omega)
      have hupper := upperS_ne_nil _ hne
      refine ⟨?_, ?_, ?_, ?_, ?_⟩
      · simp only [yearCode, specShortCode, hsn2, hnm]
        simp only [Bool.not_false, Bool.true_and, if_true, Bool.false_eq_true, if_false]
        simp only [truthyO]
        rw [if_pos (by simpa using hupper)]
        simp
      · simp only [yearCode, hsn2, hnm, Bool.not_false, Bool.true_and, if_true]
        simp only [truthyO]
        rw [if_pos (by simpa using hupper)]
        simpa using hupper
      · simp only [monthCode, hnm, if_true, hsn2, Bool.false_eq_true, if_false]
        exact take_ne_nil _ 1 (truthyO_getD_ne _ hnm) (by omega)
      · intro _
        simp [monthCode, hnm, hsn2]
      · intro hc
        rw [hnm] at hc
        cases hc
    · have hnm2 : truthyO (osd.bind ShiftDef.name) = false := by simpa using hnm
      refine ⟨?_, ?_, ?_, ?_, ?_⟩
      · simp [yearCode, specShortCode, hsn2, hnm2]
      · simp [yearCode, hsn2, hnm2]
      · simp [monthCode, hnm2]
      · intro hc
        rw [hnm2] at hc
        cases hc
      · intro _
        simp [monthCode, hnm2]

/-- C7 counterexample: a definition named `nacht` without shortname gets
month-grid code `n` (first character, not upper-cased), not the spec's
`NA`; and a definition with shortname `X` but no name gets month-grid code
`T`, not the shortname. -/
theorem claim_C7_counterexample :
    monthCode (some ⟨5, some [110, 97, 99, 104, 116], Option.none, Option.none,
      Option.none, Option.none, Option.none⟩) = [110] ∧
    specShortCode (some ⟨5, some [110, 97, 99, 104, 116], Option.none, Option.none,
      Option.none, Option.none, Option.none⟩) = [78, 65] ∧
    ([110] : List Nat) ≠ [78, 65] ∧
    monthCode (some ⟨6, Option.none, some [88], Option.none, Option.none,
      Option.none, Option.none⟩) = [84] ∧
    truthyO (some [88]) = true ∧ ([84] : List Nat) ≠ [88] := by decide





theorem alookup_mem {α : Type} [DecidableEq α] {β : Type}
    (k : α) (v : β) (l : List (α × β)) (h : alookup k l = some v) :
    (k, v) ∈ l := by
  induction l with
  | nil => cases h
  | cons p r ih =>
    by_cases hp : p.1 = k
    · rw [alookup, if_pos hp] at h
      cases h
      subst hp
      simp
    · rw [alookup, if_neg hp] at h
      exact List.mem_cons_of_mem p (ih h)

theorem dienstplanShown_active (limit : Option Nat) (emps : List Employee)
    (e : Employee) (h : e ∈ dienstplanShown limit emps) :
    e ∈ emps ∧ e.empend = Option.none := by
  have hef : e ∈ emps.filter fun e2 => e2.empend.isNone := by
    cases limit with
    | none => simpa [dienstplanShown.eq_def] using h
    | some l =>
      simp only [dienstplanShown.eq_def] at h
      by_cases hc : l < (emps.filter fun e2 => e2.empend.isNone).length
      · rw [if_pos hc] at h
        exact List.mem_of_mem_take h
      · rw [if_neg hc] at h
        exact h
  rw [List.mem_filter] at hef
  refine ⟨hef.1, ?_⟩
  cases hempend : e.empend
  · rfl
  · rw [hempend] at hef
    simp at hef

theorem dienstplanStep_Q (lo hi : Date) (defsD : List (Nat × ShiftDef))
    (emps : List Employee) (acc acc2 : List (Nat × DSched)) (a : SRec)
    (hstep : dienstplanStep lo hi defsD (some acc) a = some acc2)
    (hq : schedQ emps acc) : schedQ emps acc2 := by
  rw [dienstplanStep] at hstep
  simp only [Option.bind] at hstep
  cases heid : a.employee_id with
  | none =>
    simp only [heid] at hstep
    cases hstep
    exact hq
  | some eid =>
    simp only [heid] at hstep
    cases hl : alookup eid acc with
    | none =>
      simp only [hl] at hstep
      cases hstep
      exact hq
    | some es =>
      simp only [hl] at hstep
      cases ho : dienstplanOutcome lo hi a.date with
      | skip => simp only [ho] at hstep; cases hstep; exact hq
      | outWin => simp only [ho] at hstep; cases hstep; exact hq
      | err => simp only [ho] at hstep; cases hstep; exact hq
      | crash => simp only [ho] at hstep; cases hstep
      | inWin d =>
        simp only [ho] at hstep
        cases hstep
        intro p hp
        rcases aupdate_mem _ _ _ _ hp with hp | hp
        · exact hq p hp
        · subst hp
          have hmem := hq (eid, es) (alookup_mem _ _ _ hl)
          exact ⟨hmem.1, hmem.2⟩

theorem dienstplanFold_Q (lo hi : Date) (defsD : List (Nat × ShiftDef))
    (emps : List Employee) :
    ∀ (l : List SRec) (oacc : Option (List (Nat × DSched)))
      (out : List (Nat × DSched)),
      (∀ acc, oacc = some acc → schedQ emps acc) →
      List.foldl (dienstplanStep lo hi defsD) oacc l = some out →
      schedQ emps out := by
  intro l
  induction l with
  | nil =>
    intro oacc out h hf
    exact h out hf
  | cons a r ih =>
    intro oacc out h hf
    rw [List.foldl_cons] at hf
    refine ih _ out ?_ hf
    intro acc2 hstep
    cases oacc with
    | none => rw [dienstplanStep, Option.bind] at hstep; cases hstep
    | some acc => exact dienstplanStep_Q lo hi defsD emps acc acc2 a hstep (h acc rfl)



theorem dienstplanFold_none (lo hi : Date) (defsD : List (Nat × ShiftDef)) :
    ∀ l : List SRec,
      List.foldl (dienstplanStep lo hi defsD) Option.none l = Option.none := by
  intro l
  induction l with
  | nil => rfl
  | cons a r ih =>
    rw [List.foldl_cons]
    rw [show dienstplanStep lo hi defsD Option.none a = Option.none from rfl]
    exact ih

theorem dienstplanStep_none (lo hi : Date) (defsD : List (Nat × ShiftDef))
    (a : SRec) : dienstplanStep lo hi defsD Option.none a = Option.none := rfl

theorem dienstplanStep_skip (lo hi : Date) (defsD : List (Nat × ShiftDef))
    (emps : List Employee) (acc : List (Nat × DSched)) (f : SRec)
    (hq : schedQ emps acc)
    (hf : ∀ e ∈ emps, e.empend = Option.none → some e.id ≠ f.employee_id) :
    dienstplanStep lo hi defsD (some acc) f = some acc := by
  rw [dienstplanStep]
  simp only [Option.bind]
  cases heid : f.employee_id with
  | none => rfl
  | some eid =>
    cases hl : alookup eid acc with
    | none => simp [hl]
    | some es =>
      exfalso
      have hmem := hq (eid, es) (alookup_mem _ _ _ hl)
      obtain ⟨_, e, he, hact, hid⟩ := hmem
      exact hf e he hact (by rw [← hid, heid])

/-- C9: the Month Grid contains only employees whose `empend` is null, and
a fact whose `employee_id` does not belong to an active employee leaves
the output unchanged, even when its date lies inside the month window. -/
theorem claim_C9_active_employees_only (year month : Nat) (limit : Option Nat)
    (emps : List Employee) (mashi spshi : List SRec) (absen : List ARec)
    (defs : List ShiftDef) :
    (∀ out, dienstplan year month limit emps mashi spshi absen defs = some out →
      ∀ p ∈ out, p.2.1.empend = Option.none ∧
        ∃ e ∈ emps, e.empend = Option.none ∧ p.1 = e.id) ∧
    (∀ (f : SRec) (pre post : List SRec),
      (∀ e ∈ emps, e.empend = Option.none → some e.id ≠ f.employee_id) →
      dienstplan year month limit emps (pre ++ f :: post) spshi absen defs =
        dienstplan year month limit emps (pre ++ post) spshi absen defs) := by
  constructor
  · intro out hout
    rw [dienstplan, dienstplanBuild] at hout
    refine dienstplanFold_Q _ _ _ emps _ _ out ?_ hout
    intro acc hacc
    cases hacc
    intro p hp
    simp only [List.mem_map] at hp
    obtain ⟨e, he, hpe⟩ := hp
    obtain ⟨hee, hact⟩ := dienstplanShown_active limit emps e he
    subst hpe
    exact ⟨hact, e, hee, hact, rfl⟩
  · intro f pre post hf
    rw [dienstplan, dienstplan, dienstplanBuild, dienstplanBuild]
    rw [show (pre ++ f :: post) ++ spshi = pre ++ f :: (post ++ spshi) by simp]
    rw [show (pre ++ post) ++ spshi = pre ++ (post ++ spshi) by simp]
    rw [List.foldl_append, List.foldl_append, List.foldl_cons]
    cases hmid : List.foldl
        (dienstplanStep ⟨year, month, 1⟩ ⟨year, month, daysInMonth year month⟩
          (dictOfDefs defs)) (some ((dienstplanShown limit emps).map
            fun e => (e.id, (e, [])))) pre with
    | none => rw [dienstplanStep_none, dienstplanFold_none]
    | some acc =>
      have hq : schedQ emps acc := by
        refine dienstplanFold_Q _ _ _ emps pre _ acc ?_ hmid
        intro acc0 hacc0
        cases hacc0
        intro p hp
        simp only [List.mem_map] at hp
        obtain ⟨e, he, hpe⟩ := hp
        obtain ⟨hee, hact⟩ := dienstplanShown_active limit emps e he
        subst hpe
        exact ⟨hact, e, hee, hact, rfl⟩
      rw [dienstplanStep_skip _ _ _ emps acc f hq hf]

/-- Witness for C9: an active and an inactive employee; a fact of an
unknown employee (id 99) is dropped although dated inside the window. -/
theorem claim_C9_active_employees_only_witness :
    (∀ out, dienstplan 2025 6 Option.none
        [⟨42, some [77], some [77], Option.none⟩,
         ⟨43, some [78], some [78], some ⟨2024, 1, 1⟩⟩]
        [⟨some 42, .str (isoRender 2025 6 10), some 5⟩] [] [] [] = some out →
      ∀ p ∈ out, p.2.1.empend = Option.none ∧
        ∃ e ∈ [⟨42, some [77], some [77], Option.none⟩,
               (⟨43, some [78], some [78], some ⟨2024, 1, 1⟩⟩ : Employee)],
          e.empend = Option.none ∧ p.1 = e.id) ∧
    dienstplan 2025 6 Option.none
        [⟨42, some [77], some [77], Option.none⟩,
         ⟨43, some [78], some [78], some ⟨2024, 1, 1⟩⟩]
        ([] ++ (⟨some 99, .str (isoRender 2025 6 10), some 5⟩ : SRec) ::
          [⟨some 42, .str (isoRender 2025 6 10), some 5⟩]) [] [] [] =
      dienstplan 2025 6 Option.none
        [⟨42, some [77], some [77], Option.none⟩,
         ⟨43, some [78], some [78], some ⟨2024, 1, 1⟩⟩]
        ([] ++ [⟨some 42, .str (isoRender 2025 6 10), some 5⟩]) [] [] [] := by
  have h := claim_C9_active_employees_only 2025 6 Option.none
    [⟨42, some [77], some [77], Option.none⟩,
     ⟨43, some [78], some [78], some ⟨2024, 1, 1⟩⟩]
    [⟨some 42, .str (isoRender 2025 6 10), some 5⟩] [] [] []
  refine ⟨h.1, ?_⟩
  exact (claim_C9_active_employees_only 2025 6 Option.none
    [⟨42, some [77], some [77], Option.none⟩,
     ⟨43, some [78], some [78], some ⟨2024, 1, 1⟩⟩] [] [] [] []).2
    ⟨some 99, .str (isoRender 2025 6 10), some 5⟩ []
    [⟨some 42, .str (isoRender 2025 6 10), some 5⟩] (by decide)



/-- C3 counterexample: employee 42 has a Primary fact for shift 5
(`Frueh`) and an Absence fact on 2025-06-10; the Month Grid cell for day
10 shows the shift's name, not an absence label — `get_dienstplan` never
queries the absence table. -/
theorem claim_C3_counterexample :
    cellNameOf (dienstplan 2025 6 Option.none
      [⟨42, some [77], some [77], Option.none⟩]
      [⟨some 42, .str (isoRender 2025 6 10), some 5⟩] []
      [⟨some 42, .str (isoRender 2025 6 10), some 1⟩]
      [⟨5, some [70, 114, 117, 101, 104], Option.none, Option.none,
        Option.none, Option.none, Option.none⟩]) 42 10 =
      some [70, 114, 117, 101, 104] ∧
    ¬ cellNameOf (dienstplan 2025 6 Option.none
      [⟨42, some [77], some [77], Option.none⟩]
      [⟨some 42, .str (isoRender 2025 6 10), some 5⟩] []
      [⟨some 42, .str (isoRender 2025 6 10), some 1⟩]
      [⟨5, some [70, 114, 117, 101, 104], Option.none, Option.none,
        Option.none, Option.none, Option.none⟩]) 42 10 =
      some abwesenheitStr := by
  constructor
  · decide
  · decide

/-- C3 (amended): the Month Grid Projection reads only the primary and
override streams — the absence table never influences its output — so an
employee with both a Primary fact and an Absence fact on a date inside
the month sees the primary shift's name for that day, never an absence
label. -/
theorem claim_C3_month_grid_ignores_absences :
    (∀ (year month : Nat) (limit : Option Nat) (emps : List Employee)
        (mashi spshi : List SRec) (absen absen2 : List ARec)
        (defs : List ShiftDef),
      dienstplan year month limit emps mashi spshi absen defs =
        dienstplan year month limit emps mashi spshi absen2 defs) ∧
    (∀ absen : List ARec,
      cellNameOf (dienstplan 2025 6 Option.none
        [⟨42, some [77], some [77], Option.none⟩]
        [⟨some 42, .str (isoRender 2025 6 10), some 5⟩] [] absen
        [⟨5, some [70, 114, 117, 101, 104], Option.none, Option.none,
          Option.none, Option.none, Option.none⟩]) 42 10 =
        some [70, 114, 117, 101, 104]) := by
  constructor
  · intro year month limit emps mashi spshi absen absen2 defs
    rfl
  · intro absen
    have he : dienstplan 2025 6 Option.none
        [⟨42, some [77], some [77], Option.none⟩]
        [⟨some 42, .str (isoRender 2025 6 10), some 5⟩] [] absen
        [⟨5, some [70, 114, 117, 101, 104], Option.none, Option.none,
          Option.none, Option.none, Option.none⟩] =
        dienstplan 2025 6 Option.none
        [⟨42, some [77], some [77], Option.none⟩]
        [⟨some 42, .str (isoRender 2025 6 10), some 5⟩] [] []
        [⟨5, some [70, 114, 117, 101, 104], Option.none, Option.none,
          Option.none, Option.none, Option.none⟩] := rfl
    rw [he]
    decide



theorem aupdate_append {α : Type} [DecidableEq α] {β : Type}
    (k : α) (v : β) (l : List (α × β)) (h : alookup k l = Option.none) :
    aupdate k v l = l ++ [(k, v)] := by
  induction l with
  | nil => rfl
  | cons p r ih =>
    by_cases hp : p.1 = k
    · rw [alookup, if_pos hp] at h
      cases h
    · rw [alookup, if_neg hp] at h
      rw [aupdate, if_neg hp, ih h]
      rfl

theorem sum_aupdate_some {α : Type} [DecidableEq α] {β : Type} (f : β → Nat)
    (k : α) (v w : β) (l : List (α × β)) (h : alookup k l = some w) :
    ((aupdate k v l).map fun p => f p.2).sum + f w =
      (l.map fun p => f p.2).sum + f v := by
  induction l with
  | nil => cases h
  | cons p r ih =>
    by_cases hp : p.1 = k
    · rw [alookup, if_pos hp] at h
      cases h
      rw [aupdate, if_pos hp]
      simp
      omega
    · rw [alookup, if_neg hp] at h
      rw [aupdate, if_neg hp]
      simp only [List.map_cons, List.sum_cons]
      have := ih h
      omega

theorem totalEntries_bump (mx : Matrix) (nm : List Nat) (rd : RowDef)
    (day : Nat) (c : Cell) :
    totalEntries (bump mx nm rd day c) = totalEntries mx + 1 := by
  rw [bump]
  cases h : alookup nm mx with
  | none =>
    show totalEntries (aupdate nm ⟨rd, [(day, [c])]⟩ mx) = totalEntries mx + 1
    rw [aupdate_append _ _ _ h]
    simp [totalEntries, rowEntries]
  | some row =>
    show totalEntries
        (match alookup day row.days with
          | Option.none => aupdate nm ⟨row.rdef, aupdate day [c] row.days⟩ mx
          | some cs =>
            aupdate nm ⟨row.rdef, aupdate day (cs ++ [c]) row.days⟩ mx) =
      totalEntries mx + 1
    cases hd : alookup day row.days with
    | none =>
      show totalEntries (aupdate nm ⟨row.rdef, aupdate day [c] row.days⟩ mx) =
        totalEntries mx + 1
      have hs := sum_aupdate_some rowEntries nm
        ⟨row.rdef, aupdate day [c] row.days⟩ row mx h
      have hrow : rowEntries ⟨row.rdef, aupdate day [c] row.days⟩ =
          rowEntries row + 1 := by
        simp only [rowEntries, aupdate_append _ _ _ hd]
        simp
      simp only [totalEntries] at hs ⊢
      omega
    | some cs =>
      show totalEntries
          (aupdate nm ⟨row.rdef, aupdate day (cs ++ [c]) row.days⟩ mx) =
        totalEntries mx + 1
      have hs := sum_aupdate_some rowEntries nm
        ⟨row.rdef, aupdate day (cs ++ [c]) row.days⟩ row mx h
      have hday := sum_aupdate_some List.length day (cs ++ [c]) cs row.days hd
      have hrow : rowEntries ⟨row.rdef, aupdate day (cs ++ [c]) row.days⟩ +
          cs.length = rowEntries row + cs.length + 1 := by
        simp only [rowEntries]
        simp only [List.length_append, List.length_cons, List.length_nil] at hday
        omega
      simp only [totalEntries] at hs ⊢
      omega

theorem einsatzFold_none (lo hi : Date) (defsD : List (Nat × ShiftDef))
    (empD : List (Nat × Employee)) :
    ∀ l : List EAssign,
      List.foldl (einsatzStep lo hi defsD empD) Option.none l = Option.none := by
  intro l
  induction l with
  | nil => rfl
  | cons a r ih =>
    rw [List.foldl_cons]
    rw [show einsatzStep lo hi defsD empD Option.none a = Option.none from rfl]
    exact ih

theorem einsatzFold_counts (lo hi : Date) (defsD : List (Nat × ShiftDef))
    (empD : List (Nat × Employee)) :
    ∀ (l : List EAssign) (mx : Matrix) (pc errs : Nat) (out : Matrix × Nat × Nat),
      List.foldl (einsatzStep lo hi defsD empD) (some (mx, pc, errs)) l = some out →
      out.2.1 = pc + countIn lo hi l ∧
      out.2.2 = errs + countDropped lo hi l ∧
      totalEntries out.1 = totalEntries mx + countIn lo hi l := by
  intro l
  induction l with
  | nil =>
    intro mx pc errs out h
    cases h
    simp [countIn, countDropped]
  | cons a r ih =>
    intro mx pc errs out h
    rw [List.foldl_cons] at h
    rw [countIn, countDropped]
    cases ho : einsatzOutcome lo hi a.date with
    | skip =>
      rw [show einsatzStep lo hi defsD empD (some (mx, pc, errs)) a =
        some (mx, pc, errs) by simp [einsatzStep, Option.bind, ho]] at h
      have hr := ih mx pc errs out h
      simp only [outcomeIn, outcomeDrop]
      omega
    | err =>
      rw [show einsatzStep lo hi defsD empD (some (mx, pc, errs)) a =
        some (mx, pc, errs + 1) by simp [einsatzStep, Option.bind, ho]] at h
      have hr := ih mx pc (errs + 1) out h
      simp only [outcomeIn, outcomeDrop]
      omega
    | outWin =>
      rw [show einsatzStep lo hi defsD empD (some (mx, pc, errs)) a =
        some (mx, pc, errs + 1) by simp [einsatzStep, Option.bind, ho]] at h
      have hr := ih mx pc (errs + 1) out h
      simp only [outcomeIn, outcomeDrop]
      omega
    | crash =>
      rw [show einsatzStep lo hi defsD empD (some (mx, pc, errs)) a =
        Option.none by simp [einsatzStep, Option.bind, ho]] at h
      rw [einsatzFold_none] at h
      cases h
    | inWin d =>
      have hstep : einsatzStep lo hi defsD empD (some (mx, pc, errs)) a =
          some (bump mx
            (if a.isAbsence then (abwesenheitStr, RowDef.absenceDef)
             else match a.shift_id.bind fun i => alookup i defsD with
               | some sd => (sd.name.getD unbekannteStr, RowDef.fromDef sd)
               | Option.none => (unbekannteStr, RowDef.emptyDef)).1
            (if a.isAbsence then (abwesenheitStr, RowDef.absenceDef)
             else match a.shift_id.bind fun i => alookup i defsD with
               | some sd => (sd.name.getD unbekannteStr, RowDef.fromDef sd)
               | Option.none => (unbekannteStr, RowDef.emptyDef)).2
            d.d (cellOf empD a.employee_id), pc + 1, errs) := by
        simp [einsatzStep, Option.bind, ho]
      rw [hstep] at h
      have hr := ih _ (pc + 1) errs out h
      rw [totalEntries_bump] at hr
      simp only [outcomeIn, outcomeDrop]
      omega



theorem einsatzStep_some (lo hi : Date) (defsD : List (Nat × ShiftDef))
    (empD : List (Nat × Employee)) (acc : Matrix × Nat × Nat) (a : EAssign)
    (h : einsatzOutcome lo hi a.date ≠ .crash) :
    ∃ acc2, einsatzStep lo hi defsD empD (some acc) a = some acc2 := by
  obtain ⟨mx, pc, errs⟩ := acc
  refine Option.isSome_iff_exists.mp ?_
  cases ho : einsatzOutcome lo hi a.date with
  | skip => simp [einsatzStep, Option.bind, ho]
  | err => simp [einsatzStep, Option.bind, ho]
  | outWin => simp [einsatzStep, Option.bind, ho]
  | inWin d => simp [einsatzStep, Option.bind, ho]
  | crash => exact absurd ho h

theorem einsatzStep_crash (lo hi : Date) (defsD : List (Nat × ShiftDef))
    (empD : List (Nat × Employee)) (acc : Matrix × Nat × Nat) (a : EAssign)
    (h : einsatzOutcome lo hi a.date = .crash) :
    einsatzStep lo hi defsD empD (some acc) a = Option.none := by
  obtain ⟨mx, pc, errs⟩ := acc
  simp [einsatzStep, Option.bind, h]

theorem einsatzFold_some (lo hi : Date) (defsD : List (Nat × ShiftDef))
    (empD : List (Nat × Employee)) :
    ∀ l : List EAssign,
      (∀ a ∈ l, einsatzOutcome lo hi a.date ≠ .crash) →
      ∀ acc, (List.foldl (einsatzStep lo hi defsD empD) (some acc) l).isSome = true := by
  intro l
  induction l with
  | nil => intro _ acc; rfl
  | cons a r ih =>
    intro hl acc
    rw [List.foldl_cons]
    obtain ⟨acc2, hacc2⟩ :=
      einsatzStep_some lo hi defsD empD acc a (hl a (by simp))
    rw [hacc2]
    exact ih (fun b hb => hl b (List.mem_cons_of_mem a hb)) acc2

theorem einsatzFold_crash (lo hi : Date) (defsD : List (Nat × ShiftDef))
    (empD : List (Nat × Employee)) :
    ∀ l : List EAssign,
      (∃ a ∈ l, einsatzOutcome lo hi a.date = .crash) →
      ∀ acc, List.foldl (einsatzStep lo hi defsD empD) (some acc) l =
        Option.none := by
  intro l
  induction l with
  | nil =>
    intro hex acc
    obtain ⟨a, ha, _⟩ := hex
    cases ha
  | cons a r ih =>
    intro hex acc
    rw [List.foldl_cons]
    obtain ⟨b, hb, hbc⟩ := hex
    rcases List.mem_cons.mp hb with hb | hb
    · subst hb
      rw [einsatzStep_crash lo hi defsD empD acc b hbc]
      exact einsatzFold_none lo hi defsD empD r
    · by_cases hac : einsatzOutcome lo hi a.date = .crash
      · rw [einsatzStep_crash lo hi defsD empD acc a hac]
        exact einsatzFold_none lo hi defsD empD r
      · obtain ⟨acc2, hacc2⟩ := einsatzStep_some lo hi defsD empD acc a hac
        rw [hacc2]
        exact ih ⟨b, hb, hbc⟩ acc2

/-- C4 (amended): the Shift Matrix Projection performs no per-key
reconciliation — every fact whose date normalizes into the month window
contributes its own cell entry, so the total number of employee entries
in the matrix equals the processed count, which equals the number of such
facts; an employee with both a Primary fact and an Absence fact on one
day therefore appears in both the shift's row and the synthetic
'Abwesenheit' row. -/
theorem claim_C4_entry_per_fact (year month : Nat) (mashi spshi : List SRec)
    (absen : List ARec) (defs : List ShiftDef) (emps : List Employee)
    (mx : Matrix) (pc errs : Nat)
    (h : einsatzplan year month mashi spshi absen defs emps = some (mx, pc, errs)) :
    totalEntries mx = pc ∧
    pc = countIn ⟨year, month, 1⟩ ⟨year, month, daysInMonth year month⟩
      (einsatzFacts mashi spshi absen) := by
  rw [einsatzplan] at h
  have hc := einsatzFold_counts ⟨year, month, 1⟩
    ⟨year, month, daysInMonth year month⟩ (dictOfDefs defs) (dictOfEmps emps)
    (einsatzFacts mashi spshi absen) [] 0 0 (mx, pc, errs) h
  obtain ⟨h1, h2, h3⟩ := hc
  simp at h1 h2 h3
  have h0 : totalEntries [] = 0 := rfl
  rw [h0] at h3
  exact ⟨by omega, by omega⟩

/-- C4 counterexample: employee 42 with a Primary fact for shift `Frueh`
and an Absence fact on 2025-06-10 appears in BOTH the `Frueh` row and the
'Abwesenheit' row at day 10 — not only in a single winning row. -/
theorem claim_C4_counterexample :
    matrixMem (einsatzplan 2025 6 [⟨some 42, .str (isoRender 2025 6 10), some 5⟩]
      [] [⟨some 42, .str (isoRender 2025 6 10), some 1⟩]
      [⟨5, some [70, 114, 117, 101, 104], Option.none, Option.none,
        Option.none, Option.none, Option.none⟩]
      [⟨42, some [77], some [78], Option.none⟩])
      [70, 114, 117, 101, 104] 10 42 = true ∧
    matrixMem (einsatzplan 2025 6 [⟨some 42, .str (isoRender 2025 6 10), some 5⟩]
      [] [⟨some 42, .str (isoRender 2025 6 10), some 1⟩]
      [⟨5, some [70, 114, 117, 101, 104], Option.none, Option.none,
        Option.none, Option.none, Option.none⟩]
      [⟨42, some [77], some [78], Option.none⟩])
      abwesenheitStr 10 42 = true := by
  constructor
  · decide
  · decide

/-- Witness for the amended C4 at the two-fact scenario: two processed
facts, two cell entries. -/
theorem claim_C4_entry_per_fact_witness :
    totalEntries [([70, 114, 117, 101, 104],
      ⟨RowDef.fromDef ⟨5, some [70, 114, 117, 101, 104], Option.none,
        Option.none, Option.none, Option.none, Option.none⟩,
       [(10, [⟨some 42, [77], [78]⟩])]⟩),
      (abwesenheitStr,
       ⟨RowDef.absenceDef, [(10, [⟨some 42, [77], [78]⟩])]⟩)] = 2 ∧
    (2 : Nat) = countIn ⟨2025, 6, 1⟩ ⟨2025, 6, daysInMonth 2025 6⟩
      (einsatzFacts [⟨some 42, .str (isoRender 2025 6 10), some 5⟩] []
        [⟨some 42, .str (isoRender 2025 6 10), some 1⟩]) :=
  claim_C4_entry_per_fact 2025 6
    [⟨some 42, .str (isoRender 2025 6 10), some 5⟩] []
    [⟨some 42, .str (isoRender 2025 6 10), some 1⟩]
    [⟨5, some [70, 114, 117, 101, 104], Option.none, Option.none,
      Option.none, Option.none, Option.none⟩]
    [⟨42, some [77], some [78], Option.none⟩]
    [([70, 114, 117, 101, 104],
      ⟨RowDef.fromDef ⟨5, some [70, 114, 117, 101, 104], Option.none,
        Option.none, Option.none, Option.none, Option.none⟩,
       [(10, [⟨some 42, [77], [78]⟩])]⟩),
      (abwesenheitStr,
       ⟨RowDef.absenceDef, [(10, [⟨some 42, [77], [78]⟩])]⟩)] 2 0 (by decide)

/-- C5 (amended): a fact whose date string fails normalization is dropped
and counted and processing continues past it, but the same counter also
counts facts whose date parses successfully yet lies outside the month
window, so the accumulated count equals failed normalizations plus parsed
out-of-window facts; and the projection aborts exactly when some fact's
date is a slash-containing string that does not split into three parts
(an uncaught `TypeError`). -/
theorem claim_C5_drop_counting (year month : Nat) (mashi spshi : List SRec)
    (absen : List ARec) (defs : List ShiftDef) (emps : List Employee) :
    (∀ (mx : Matrix) (pc errs : Nat),
      einsatzplan year month mashi spshi absen defs emps = some (mx, pc, errs) →
      errs = countDropped ⟨year, month, 1⟩ ⟨year, month, daysInMonth year month⟩
        (einsatzFacts mashi spshi absen)) ∧
    ((einsatzplan year month mashi spshi absen defs emps).isSome = true ↔
      ∀ a ∈ einsatzFacts mashi spshi absen,
        einsatzOutcome ⟨year, month, 1⟩ ⟨year, month, daysInMonth year month⟩
          a.date ≠ .crash) := by
  constructor
  · intro mx pc errs h
    rw [einsatzplan] at h
    have hc := einsatzFold_counts ⟨year, month, 1⟩
      ⟨year, month, daysInMonth year month⟩ (dictOfDefs defs) (dictOfEmps emps)
      (einsatzFacts mashi spshi absen) [] 0 0 (mx, pc, errs) h
    obtain ⟨_, h2, _⟩ := hc
    simp at h2
    omega
  · constructor
    · intro hsome a ha hcrash
      rw [einsatzplan] at hsome
      rw [einsatzFold_crash ⟨year, month, 1⟩
        ⟨year, month, daysInMonth year month⟩ (dictOfDefs defs)
        (dictOfEmps emps) (einsatzFacts mashi spshi absen)
        ⟨a, ha, hcrash⟩ ([], 0, 0)] at hsome
      cases hsome
    · intro hnc
      rw [einsatzplan]
      exact einsatzFold_some ⟨year, month, 1⟩
        ⟨year, month, daysInMonth year month⟩ (dictOfDefs defs)
        (dictOfEmps emps) (einsatzFacts mashi spshi absen) hnc ([], 0, 0)

/-- C5 counterexample: a fact dated 2025-07-01 (a successfully parsed,
valid date outside June) is counted by `date_parse_errors`, so the count
(1) differs from the number of failed normalizations (0); and the date
string `1/2` aborts the whole projection instead of being dropped. -/
theorem claim_C5_counterexample :
    einsatzplan 2025 6 [⟨some 42, .str (isoRender 2025 7 1), some 5⟩] [] [] [] [] =
      some ([], 0, 1) ∧
    einsatzStrParse (isoRender 2025 7 1) = .ok ⟨2025, 7, 1⟩ ∧
    einsatzplan 2025 6 [⟨some 42, .str [49, 47, 50], some 5⟩] [] [] [] [] =
      Option.none := by
  refine ⟨?_, ?_, ?_⟩
  · decide
  · decide
  · decide

/-- Witness for the amended C5: the out-of-window fact is counted once and
the projection still succeeds. -/
theorem claim_C5_drop_counting_witness :
    (1 : Nat) = countDropped ⟨2025, 6, 1⟩ ⟨2025, 6, daysInMonth 2025 6⟩
      (einsatzFacts [⟨some 42, .str (isoRender 2025 7 1), some 5⟩] [] []) ∧
    (einsatzplan 2025 6 [⟨some 42, .str (isoRender 2025 7 1), some 5⟩]
      [] [] [] []).isSome = true := by
  have h := claim_C5_drop_counting 2025 6
    [⟨some 42, .str (isoRender 2025 7 1), some 5⟩] [] [] [] []
  exact ⟨h.1 [] 0 1 (by decide), h.2.mpr (by decide)⟩

end SP5
